import Mathlib

/-!
# Minesweeper tile controller (`ClickableTile.cpp`)

A shallow embedding of `ClickableTile` and of the part of the session it reads and
writes, followed by theorems about its input state machine, its left-click and
right-click handlers and the board they mutate.

Conventions of the embedding.

* Member functions become functions that take the tile and the session and return the
  updated tile and/or session.  Calls into collaborators the controller does not own
  (sound, effects, game-state stack, HUD timer, flags-used counter) are appended, in call
  order, to `Session.trace`; entry into `OnLeftClick`, `OnRightClick` and `OnMouseEnter`
  is recorded in the same trace, so that "a click was dispatched" is an observable fact.
* Screen coordinates and sizes are pixel quantities far inside the range of `int`;
  they are taken in `Int`/`Nat`, `static_cast<int>(width_)` is the inclusion of `Nat`
  in `Int`, and sums such as `x_ + width` are sums in `Int`.
* `float` quantities (`currentAlpha_`, `maxAlpha_`, `fadeSpeed_`) are exact rationals.
* `Board.h`, `Board.cpp`, `MinesweeperState.h` and `ClickableTile.h` are not among the
  sources.  The board's data is modelled from the specification's data model; its two
  algorithms (`Initialize`, `RevealFrom`) are parameters of the handlers (`BoardOps`),
  so every theorem about a handler holds for any implementation of them.
-/

namespace Minesweeper

/-! ## Data model -/

/-- The four values of `Tile::Status`. -/
inductive Status where
  | HIDDEN
  | REVEALED
  | MARKED
  | QMARK
  deriving DecidableEq

/-- Modelled from the spec: the cell type `Tile` of `Board.h` (not among the sources),
with the three members the controller reads: `status`, `hasMine`, `adjacentMines`. -/
structure Tile where
  status : Status
  hasMine : Bool
  adjacentMines : Int
  deriving DecidableEq

/-- Modelled from the spec: the class `Board` of `Board.h` (not among the sources): a grid
of cells, a total mine count, a revealed-cell counter and an initialization flag.  The
grid is a total function of the two coordinates; only coordinates below `width` and
`height` belong to the board. -/
structure Board where
  width : Nat
  height : Nat
  mineCount : Int
  revealedTiles : Int
  initialized : Bool
  cells : Nat → Nat → Tile

/-- Modelled from the spec: the accessor `Board::At(x, y)` (`Board.cpp` is not among the
sources), read. -/
def Board.At (b : Board) (x y : Nat) : Tile := b.cells x y

/-- Modelled from the spec: the assignment `board_.At(x, y).status = st` through the
reference that `Board::At` returns: one cell's status is overwritten, nothing else (in
particular not the revealed-cell counter, which only the board's own algorithms touch). -/
def Board.setStatus (b : Board) (x y : Nat) (st : Status) : Board :=
  { b with cells := fun i j =>
      if i = x ∧ j = y then { b.cells i j with status := st } else b.cells i j }

/-- The two board algorithms whose code is not among the sources, as parameters:
`Initialize b x y mines` is the board after `b.Initialize(x, y, mines)`, and
`RevealFrom b x y` is the board after `b.RevealFrom(x, y)` with the returned count. -/
structure BoardOps where
  Initialize : Board → Nat → Nat → Int → Board
  RevealFrom : Board → Nat → Nat → Board × Int

/-- The sound files the controller plays: `single.wav`, `clear.wav`, `lose.wav`,
`bip.wav` and `SFX_ButtonHover.ogg`. -/
inductive Sound where
  | single
  | clear
  | lose
  | bip
  | hover
  deriving DecidableEq

/-- A `Rectangle` literal `{x, y, w, h}`. -/
structure Rectangle where
  x : Int
  y : Int
  w : Int
  h : Int
  deriving DecidableEq

/-- One entry of the session trace: a call the controller makes on a collaborator, or
the entry into one of its own handlers. -/
inductive Call where
  | OnLeftClick (boardX boardY : Nat)
  | OnRightClick (boardX boardY : Nat)
  | OnMouseEnter (boardX boardY : Nat)
  | PlaySound (s : Sound)
  | SpawnClearEffects (boardX boardY : Nat) (src : Rectangle)
  | BoardInitialize (x y : Nat) (mines : Int)
  | BoardRevealFrom (x y : Nat)
  | SetFlagsUsed (n : Int)
  | IncrementFlagsUsed
  | DecrementFlagsUsed
  | StartTimer
  | PushState (won : Bool)
  deriving DecidableEq

/-- Modelled from the spec: the session around the tile (`MinesweeperState.h`, `Game.h` and
`SoundFactory.h` are not among the sources).  It holds everything outside the tile that
the controller reads or writes: the shared board, the flags-used counter (an integer
with `set`, `increment` by one and `decrement` by one), the configured mine count, the
tile size, whether the HUD timer was started, and the trace of calls made so far. -/
structure Session where
  board : Board
  flagsUsed : Int
  mineCount : Int
  tileWidth : Nat
  tileHeight : Nat
  timerStarted : Bool
  trace : List Call

/-- Append one call to the trace. -/
def Session.emit (s : Session) (c : Call) : Session :=
  { s with trace := s.trace ++ [c] }

/-- An `SDL_Color` `{r, g, b, a}`, each channel a `Uint8`. -/
structure SDL_Color where
  r : Nat
  g : Nat
  b : Nat
  a : Nat
  deriving DecidableEq

/-- The data members of `ClickableTile`.  `maxAlpha` and `fadeSpeed` are the class
constants `maxAlpha_` and `fadeSpeed_`, declared in `ClickableTile.h` (not among the
sources) and therefore left as parameters. -/
structure ClickableTile where
  x : Int
  y : Int
  width : Nat
  height : Nat
  boardX : Nat
  boardY : Nat
  doFadeInEffect : Bool
  fadeColor : SDL_Color
  currentAlpha : ℚ
  clickedInTile : Bool
  maxAlpha : ℚ
  fadeSpeed : ℚ
  deriving DecidableEq

/-- The constructor's initializer list: no fade-in, fade colour `{255,255,255,0}`,
alpha `0.0f`, no press captured. -/
def ClickableTile.new (x y : Int) (width height boardX boardY : Nat)
    (maxAlpha fadeSpeed : ℚ) : ClickableTile :=
  { x := x, y := y, width := width, height := height, boardX := boardX, boardY := boardY,
    doFadeInEffect := false, fadeColor := ⟨255, 255, 255, 0⟩, currentAlpha := 0,
    clickedInTile := false, maxAlpha := maxAlpha, fadeSpeed := fadeSpeed }

/-- The values of `ev.type` the controller distinguishes; every other SDL event type is
`OTHER`. -/
inductive EventType where
  | MOUSEBUTTONDOWN
  | MOUSEBUTTONUP
  | MOUSEMOTION
  | OTHER
  deriving DecidableEq

/-- The fields of an `SDL_Event` the controller reads.  `x`, `y` stand for `ev.button.x`,
`ev.button.y` in a button event and for `ev.motion.x`, `ev.motion.y` in a motion event;
`button` is `ev.button.button`; `xrel`, `yrel` are `ev.motion.xrel`, `ev.motion.yrel`. -/
structure SDL_Event where
  type : EventType
  button : Nat
  x : Int
  y : Int
  xrel : Int
  yrel : Int
  deriving DecidableEq

/-- The SDL constant `SDL_BUTTON_LEFT`. -/
def SDL_BUTTON_LEFT : Nat := 1

/-- The SDL constant `SDL_BUTTON_RIGHT`. -/
def SDL_BUTTON_RIGHT : Nat := 3

/-- The conversion of a `float` to `Uint8` (`static_cast<Uint8>(currentAlpha_)` and the
implicit conversions in `Update`): truncation toward zero, kept in eight bits. -/
def toUint8 (q : ℚ) : Nat :=
  ((if 0 ≤ q then Int.floor q else -Int.floor (-q)) % 256).toNat

/-! ## The handlers -/

/-- The test `px >= x_ && px < x_ + static_cast<int>(width_) && py >= y_ &&
py < y_ + static_cast<int>(height_)` that `HandleInput` applies to a pointer position. -/
def ClickableTile.contains (t : ClickableTile) (px py : Int) : Bool :=
  decide (px ≥ t.x) && decide (px < t.x + (t.width : Int)) &&
  decide (py ≥ t.y) && decide (py < t.y + (t.height : Int))

/-- The closing block of `OnLeftClick` ("Check to see if we won"): push the win state when
`board_.RevealedTiles() == bw*bh - board_.MineCount()`, the arithmetic taken in `Int`. -/
def winCheck (s : Session) : Session :=
  let bw : Int := s.board.width
  let bh : Int := s.board.height
  if s.board.revealedTiles = bw * bh - s.board.mineCount then
    s.emit (Call.PushState true)
  else s

/-- The body of the losing path's loop: `if (board_.At(x, y).hasMine)
board_.At(x, y).status = Tile::REVEALED;`. -/
def revealIfMined (b : Board) (x y : Nat) : Board :=
  if (b.At x y).hasMine then b.setStatus x y Status.REVEALED else b

/-- The nested loop of the losing path: for `y` from `0` to `Height()-1` and `x` from `0`
to `Width()-1`, a cell with a mine gets `status = Tile::REVEALED`. -/
def revealAllMines (b : Board) : Board :=
  (List.range b.height).foldl
    (fun acc y => (List.range b.width).foldl (fun acc x => revealIfMined acc x y) acc) b

/-- The member function `ClickableTile::OnLeftClick`. -/
def OnLeftClick (ops : BoardOps) (t : ClickableTile) (s0 : Session) : Session :=
  let s := s0.emit (Call.OnLeftClick t.boardX t.boardY)
  if !s.board.initialized then
    let s := { s with board := ops.Initialize s.board t.boardX t.boardY s.mineCount }
    let s := s.emit (Call.BoardInitialize t.boardX t.boardY s.mineCount)
    let s := s.emit (Call.SpawnClearEffects t.boardX t.boardY ⟨0, 0, 32, 32⟩)
    let r := ops.RevealFrom s.board t.boardX t.boardY
    let s := { s with board := r.1 }
    let s := s.emit (Call.BoardRevealFrom t.boardX t.boardY)
    let s := if r.2 = 1 then s.emit (Call.PlaySound Sound.single)
             else s.emit (Call.PlaySound Sound.clear)
    let s := { s with flagsUsed := 0 }
    let s := s.emit (Call.SetFlagsUsed 0)
    let s := { s with timerStarted := true }
    let s := s.emit Call.StartTimer
    winCheck s
  else if !(s.board.At t.boardX t.boardY).hasMine &&
      (s.board.At t.boardX t.boardY).status != Status.REVEALED then
    let s := s.emit (Call.SpawnClearEffects t.boardX t.boardY ⟨0, 0, 32, 32⟩)
    let r := ops.RevealFrom s.board t.boardX t.boardY
    let s := { s with board := r.1 }
    let s := s.emit (Call.BoardRevealFrom t.boardX t.boardY)
    let s := s.emit (Call.PlaySound Sound.clear)
    winCheck s
  else if (s.board.At t.boardX t.boardY).hasMine then
    let s := s.emit (Call.PlaySound Sound.lose)
    let s := { s with board := revealAllMines s.board }
    s.emit (Call.PushState false)
  else
    winCheck s

/-- The member function `ClickableTile::OnRightClick`. -/
def OnRightClick (t : ClickableTile) (s0 : Session) : Session :=
  let s := s0.emit (Call.OnRightClick t.boardX t.boardY)
  match (s.board.At t.boardX t.boardY).status with
  | Status.HIDDEN =>
    let s := { s with board := s.board.setStatus t.boardX t.boardY Status.MARKED }
    let s := { s with flagsUsed := s.flagsUsed + 1 }
    let s := s.emit Call.IncrementFlagsUsed
    s.emit (Call.PlaySound Sound.bip)
  | Status.MARKED =>
    let s := { s with board := s.board.setStatus t.boardX t.boardY Status.QMARK }
    let s := { s with flagsUsed := s.flagsUsed - 1 }
    let s := s.emit Call.DecrementFlagsUsed
    s.emit (Call.PlaySound Sound.bip)
  | Status.QMARK =>
    let s := { s with board := s.board.setStatus t.boardX t.boardY Status.HIDDEN }
    s.emit (Call.PlaySound Sound.bip)
  | Status.REVEALED => s

/-- The member function `ClickableTile::OnMouseEnter`. -/
def OnMouseEnter (t : ClickableTile) (s0 : Session) : ClickableTile × Session :=
  let s := s0.emit (Call.OnMouseEnter t.boardX t.boardY)
  let s := if (s.board.At t.boardX t.boardY).status != Status.REVEALED then
             s.emit (Call.PlaySound Sound.hover)
           else s
  let t := { t with doFadeInEffect := true }
  let t := if !t.clickedInTile then { t with fadeColor := ⟨255, 255, 255, 0⟩ }
           else { t with fadeColor := ⟨0, 0, 0, 0⟩ }
  ({ t with currentAlpha := 50 }, s)

/-- The member function `ClickableTile::HandleInput`, branch for branch. -/
def HandleInput (ops : BoardOps) (t : ClickableTile) (s : Session) (ev : SDL_Event) :
    ClickableTile × Session :=
  if ev.type = EventType.MOUSEBUTTONUP ∧ t.contains ev.x ev.y = true ∧
      t.clickedInTile = true then
    let t := { t with clickedInTile := false }
    let t := { t with fadeColor := ⟨255, 255, 255, toUint8 t.currentAlpha⟩ }
    if ev.button = SDL_BUTTON_LEFT then (t, OnLeftClick ops t s)
    else if ev.button = SDL_BUTTON_RIGHT then (t, OnRightClick t s)
    else (t, s)
  else if ev.type = EventType.MOUSEBUTTONUP then
    ({ t with clickedInTile := false }, s)
  else if ev.type = EventType.MOUSEMOTION then
    let oldX := ev.x - ev.xrel
    let oldY := ev.y - ev.yrel
    if t.contains ev.x ev.y = true then
      if oldX < t.x ∨ oldX ≥ t.x + (t.width : Int) ∨
          oldY < t.y ∨ oldY ≥ t.y + (t.height : Int) then
        OnMouseEnter t s
      else (t, s)
    else if ev.x < t.x ∨ ev.x ≥ t.x + (t.width : Int) ∨
        ev.y < t.y ∨ ev.y ≥ t.y + (t.height : Int) then
      ({ t with doFadeInEffect := false, currentAlpha := (t.fadeColor.a : ℚ) }, s)
    else (t, s)
  else if ev.type = EventType.MOUSEBUTTONDOWN ∧ t.contains ev.x ev.y = true then
    let t := { t with currentAlpha := t.maxAlpha }
    let t := { t with fadeColor := ⟨0, 0, 0, toUint8 t.currentAlpha⟩ }
    ({ t with clickedInTile := true }, s)
  else (t, s)

/-- The member function `ClickableTile::Update`; `0.001f` is the rational `1/1000`. -/
def Update (t : ClickableTile) (ticks : Nat) : ClickableTile :=
  if t.doFadeInEffect then
    let a := t.currentAlpha + t.fadeSpeed * (ticks : ℚ) * (1 / 1000)
    { t with currentAlpha := a, fadeColor := { t.fadeColor with a := toUint8 (min a t.maxAlpha) } }
  else
    let a := t.currentAlpha - t.fadeSpeed * (ticks : ℚ) * (1 / 1000)
    { t with currentAlpha := a, fadeColor := { t.fadeColor with a := toUint8 (max a 0) } }

/-! ## Rendering -/

/-- A `Font` handle as the controller uses it: the font's name, its point size, and the
result of `SizeText` for a character (width, height). -/
structure Font where
  name : Nat
  ptSize : Nat
  sizeText : Char → Int × Int

/-- Modelled from the spec: the text writer `ScreenWriter` (`ScreenWriter.h` is not among
the sources), as far as `Draw` uses it: the current font (possibly none), the lookup of a
font by name and point size (possibly failing), and the current colour. -/
structure ScreenWriter where
  currentFont : Option Font
  getFont : Nat → Nat → Option Font
  color : SDL_Color

/-- One call issued by `Draw`: `w.Draw(texture_, &src, &dst)`,
`w.DrawFilledRect(&dst, color)`, or `sw.Write(f, color, tx, ty, text, true)` with the
name and point size of the font `f`. -/
inductive DrawCall where
  | Draw (src dst : Rectangle)
  | DrawFilledRect (dst : Rectangle) (color : SDL_Color)
  | Write (fontName fontSize : Nat) (color : SDL_Color) (tx ty : Int) (text : String)

/-- The source sprite region chosen by the `switch` of `Draw`. -/
def spriteRegion (c : Tile) : Rectangle :=
  match c.status with
  | Status.HIDDEN => ⟨0, 0, 32, 32⟩
  | Status.REVEALED => if !c.hasMine then ⟨32, 0, 32, 32⟩ else ⟨128, 0, 32, 32⟩
  | Status.MARKED => ⟨64, 0, 32, 32⟩
  | Status.QMARK => ⟨96, 0, 32, 32⟩

/-- The member function `ClickableTile::Draw`, as the list of calls it issues in order.
`ptSize` is `GetTileHeight()*0.75` truncated to `unsigned`; the label is the decimal text
of `adjacentMines`, measured by its first character. -/
def Draw (sw : ScreenWriter) (t : ClickableTile) (s : Session) : List DrawCall :=
  let c := s.board.At t.boardX t.boardY
  let st := c.status
  let src := spriteRegion c
  let dst : Rectangle := ⟨t.x, t.y, t.width, t.height⟩
  let calls := [DrawCall.Draw src dst]
  let calls := if st ≠ Status.REVEALED then calls ++ [DrawCall.DrawFilledRect dst t.fadeColor]
               else calls
  if st = Status.REVEALED ∧ c.adjacentMines > 0 ∧ c.hasMine = false then
    let text := toString c.adjacentMines
    match sw.currentFont with
    | some cur =>
      if text.length > 0 then
        let ptSize := s.tileHeight * 3 / 4
        match sw.getFont cur.name ptSize with
        | some f =>
          let wh := f.sizeText (text.get 0)
          let tx := t.x + (s.tileWidth : Int) / 2 - Int.tdiv wh.1 2
          let ty := t.y + (s.tileHeight : Int) / 2 - Int.tdiv wh.2 2
          calls ++ [DrawCall.Write f.name f.ptSize sw.color tx ty text]
        | none => calls
      else calls
    | none => calls
  else calls

/-! ## A concrete board, modelled from the specification

Used wherever a closed example needs concrete board algorithms. -/

/-- Modelled from the spec: whether the integer coordinates `(x, y)` lie on the board
(bounds of the grid of `Board`, whose code is not among the sources). -/
def Board.inBounds (b : Board) (x y : Int) : Bool :=
  decide (0 ≤ x) && decide (x < (b.width : Int)) &&
  decide (0 ≤ y) && decide (y < (b.height : Int))

/-- The eight neighbour offsets. -/
def neighbourOffsets : List (Int × Int) :=
  [(-1, -1), (0, -1), (1, -1), (-1, 0), (1, 0), (-1, 1), (0, 1), (1, 1)]

/-- Modelled from the spec: the up-to-eight neighbours of `(x, y)` that lie on the board
(grid-edge cells have fewer), as `Board::Initialize` and `Board::RevealFrom`, whose code is
not among the sources, visit them. -/
def Board.neighbours (b : Board) (x y : Nat) : List (Nat × Nat) :=
  (neighbourOffsets.filter fun d => b.inBounds ((x : Int) + d.1) ((y : Int) + d.2)).map
    fun d => (((x : Int) + d.1).toNat, ((y : Int) + d.2).toNat)

/-- Modelled from the spec: `Board::Initialize(originX, originY, mineCount)` (`Board.cpp`
is not among the sources).  `layout` is the outcome of the random draw; the origin cell
never gets a mine, every cell's `adjacentMines` is the number of mined neighbours, and
the initialization flag is set. -/
def Board.Initialize (layout : Nat → Nat → Bool) (b : Board) (ox oy : Nat) (mines : Int) :
    Board :=
  let mined : Nat → Nat → Bool := fun i j =>
    decide (i < b.width) && decide (j < b.height) && layout i j && !(decide (i = ox) && decide (j = oy))
  { b with
    mineCount := mines
    initialized := true
    cells := fun i j =>
      { b.cells i j with
        hasMine := mined i j
        adjacentMines := (((b.neighbours i j).countP fun p => mined p.1 p.2 : Nat) : Int) } }

/-- Modelled from the spec: the work-list loop of the flood fill of `Board::RevealFrom`
(`Board.cpp` is not among the sources): a cell on the board that is `HIDDEN` is revealed
and counted, and expands to its neighbours when it has no mine and no mined neighbour;
revealed and flagged cells are skipped. -/
def Board.revealLoop : Nat → List (Nat × Nat) → Board → Int → Board × Int
  | 0, _, b, n => (b, n)
  | _ + 1, [], b, n => (b, n)
  | fuel + 1, (x, y) :: rest, b, n =>
    if x < b.width ∧ y < b.height ∧ (b.At x y).status = Status.HIDDEN then
      let b1 := { b.setStatus x y Status.REVEALED with revealedTiles := b.revealedTiles + 1 }
      if (b.At x y).adjacentMines = 0 ∧ (b.At x y).hasMine = false then
        Board.revealLoop fuel (b.neighbours x y ++ rest) b1 (n + 1)
      else Board.revealLoop fuel rest b1 (n + 1)
    else Board.revealLoop fuel rest b n

/-- Modelled from the spec: `Board::RevealFrom(x, y)` (`Board.cpp` is not among the
sources): a no-op returning `0` on a revealed or flagged cell, otherwise the flood fill
from `(x, y)` over an explicit work list, returning the number of cells it revealed.
Every reveal puts at most eight cells on the list, which bounds the loop. -/
def Board.RevealFrom (b : Board) (x y : Nat) : Board × Int :=
  Board.revealLoop (9 * b.width * b.height + 1) [(x, y)] b 0

/-- The board algorithms of the specification, for a given outcome of the random draw. -/
def specOps (layout : Nat → Nat → Bool) : BoardOps :=
  { Initialize := Board.Initialize layout, RevealFrom := Board.RevealFrom }

/-! ## Observations on traces and boards -/

/-- Number of entries into `OnLeftClick` recorded in a trace. -/
def leftClicks (l : List Call) : Nat :=
  l.countP fun c => match c with
    | Call.OnLeftClick _ _ => true
    | _ => false

/-- Number of entries into `OnRightClick` recorded in a trace. -/
def rightClicks (l : List Call) : Nat :=
  l.countP fun c => match c with
    | Call.OnRightClick _ _ => true
    | _ => false

/-- Number of clicks dispatched, of either button. -/
def clicks (l : List Call) : Nat := leftClicks l + rightClicks l

/-- Number of loss transitions (`PushState(new WinLoseState(false))`) in a trace. -/
def lossSignals (l : List Call) : Nat := l.count (Call.PushState false)

/-- Number of win transitions (`PushState(new WinLoseState(true))`) in a trace. -/
def winSignals (l : List Call) : Nat := l.count (Call.PushState true)

/-- Number of sounds played in a trace. -/
def soundsPlayed (l : List Call) : Nat :=
  l.countP fun c => match c with
    | Call.PlaySound _ => true
    | _ => false

/-- The pointer position `(px, py)` lies in the half-open rectangle
`[x, x+width) × [y, y+height)` of the tile. -/
def ClickableTile.inRect (t : ClickableTile) (px py : Int) : Prop :=
  t.x ≤ px ∧ px < t.x + (t.width : Int) ∧ t.y ≤ py ∧ py < t.y + (t.height : Int)

instance (t : ClickableTile) (px py : Int) : Decidable (t.inRect px py) :=
  inferInstanceAs (Decidable (_ ∧ _ ∧ _ ∧ _))

/-- Number of cells on the board whose status is `REVEALED`. -/
def Board.countRevealed (b : Board) : Nat :=
  ((List.range b.height).map fun y =>
    (List.range b.width).countP fun x => decide ((b.At x y).status = Status.REVEALED)).sum

/-- The board invariant of the data model: the revealed-cell counter equals the number of
cells with status `REVEALED`. -/
def Board.CounterInv (b : Board) : Prop :=
  b.revealedTiles = (b.countRevealed : Int)

/-- A cell after the reveal-all-mines loop has visited it if `P` holds: revealed when it
has a mine, untouched otherwise. -/
def Tile.markIf (P : Prop) [Decidable P] (c : Tile) : Tile :=
  if P ∧ c.hasMine = true then { c with status := Status.REVEALED } else c

/-- Two boards agree on every field other than the cells. -/
def Board.SameFields (r b : Board) : Prop :=
  r.width = b.width ∧ r.height = b.height ∧ r.mineCount = b.mineCount ∧
  r.revealedTiles = b.revealedTiles ∧ r.initialized = b.initialized

/-- The win predicate `RevealedTiles() == Width()*Height() - MineCount()`. -/
def Board.won (b : Board) : Prop :=
  b.revealedTiles = (b.width : Int) * (b.height : Int) - b.mineCount

instance (b : Board) : Decidable b.CounterInv :=
  inferInstanceAs (Decidable (b.revealedTiles = (b.countRevealed : Int)))

instance (b : Board) : Decidable b.won :=
  inferInstanceAs (Decidable (b.revealedTiles = (b.width : Int) * (b.height : Int) - b.mineCount))

/-- Reference flag cycle, from the specification's words: the successor of a status. -/
def flagCycleNext : Status → Status
  | Status.HIDDEN => Status.MARKED
  | Status.MARKED => Status.QMARK
  | Status.QMARK => Status.HIDDEN
  | Status.REVEALED => Status.REVEALED

/-- Reference flag cycle, from the specification's words: the change of the flags-used
counter on leaving a status. -/
def flagCycleDelta : Status → Int
  | Status.HIDDEN => 1
  | Status.MARKED => -1
  | Status.QMARK => 0
  | Status.REVEALED => 0

/-- Reference flag cycle, from the specification's words: the number of blips played on
leaving a status (none on a revealed cell). -/
def flagCycleBlips : Status → Nat
  | Status.REVEALED => 0
  | _ => 1

/-- Reference flag-cycle step on the session state (board and flags-used counter), from
the specification's words: the cell at `(x, y)` moves to the next status of the cycle and
keeps its other fields, every other cell and every other board field stays, and the
counter moves by the delta of the status left. -/
def flagCycleStep (b : Board) (flags : Int) (x y : Nat) : Board × Int :=
  ({ width := b.width, height := b.height, mineCount := b.mineCount,
     revealedTiles := b.revealedTiles, initialized := b.initialized,
     cells := fun i j =>
       if i = x ∧ j = y then
         { status := flagCycleNext (b.cells x y).status, hasMine := (b.cells x y).hasMine,
           adjacentMines := (b.cells x y).adjacentMines }
       else b.cells i j },
   flags + flagCycleDelta (b.cells x y).status)

/-- Number of calls of `board_.Initialize`, with any arguments, recorded in a trace. -/
def boardInitializeCalls (l : List Call) : Nat :=
  l.countP fun c => match c with
    | Call.BoardInitialize _ _ _ => true
    | _ => false

/-- Number of calls of `board_.RevealFrom`, with any arguments, recorded in a trace. -/
def boardRevealCalls (l : List Call) : Nat :=
  l.countP fun c => match c with
    | Call.BoardRevealFrom _ _ => true
    | _ => false

/-- Number of entries into `OnMouseEnter` recorded in a trace. -/
def hoverEnters (l : List Call) : Nat :=
  l.countP fun c => match c with
    | Call.OnMouseEnter _ _ => true
    | _ => false

/-- One input to a tile: a pointer event for `HandleInput`, or a frame tick for `Update`. -/
inductive TileInput where
  | event (ev : SDL_Event)
  | tick (ticks : Nat)

/-- Deliver one input to a tile. -/
def stepTile (ops : BoardOps) (p : ClickableTile × Session) : TileInput → ClickableTile × Session
  | TileInput.event ev => HandleInput ops p.1 p.2 ev
  | TileInput.tick n => (Update p.1 n, p.2)

/-- Deliver a sequence of inputs to a tile, in order. -/
def runTile (ops : BoardOps) (p : ClickableTile × Session) (l : List TileInput) :
    ClickableTile × Session :=
  l.foldl (stepTile ops) p

/-- The input completes a click on the tile: it is a pointer-up inside the rectangle while
a press is captured (the first branch of `HandleInput`). -/
def completesClick (t : ClickableTile) : TileInput → Bool
  | TileInput.event ev =>
    decide (ev.type = EventType.MOUSEBUTTONUP) && t.contains ev.x ev.y && t.clickedInTile
  | TileInput.tick _ => false

/-- No input of the sequence completes a click on the tile at the moment it is delivered. -/
def clickFree (ops : BoardOps) (p : ClickableTile × Session) : List TileInput → Bool
  | [] => true
  | i :: l => !completesClick p.1 i && clickFree ops (stepTile ops p i) l

/-- The bounds that hold of a tile with constants `M = maxAlpha_` and `F = fadeSpeed_` as
long as no click is completed: the displayed alpha (the alpha of the fade colour) is at
most `M`, the alpha level is not negative while fading in, and it is at most `M` while
fading out. -/
def FadeInv (M F : ℚ) (t : ClickableTile) : Prop :=
  t.maxAlpha = M ∧ t.fadeSpeed = F ∧
  ((t.fadeColor.a : Nat) : ℚ) ≤ M ∧
  (t.doFadeInEffect = true → 0 ≤ t.currentAlpha) ∧
  (t.doFadeInEffect = false → t.currentAlpha ≤ M)

/-- Reference rendering, from the specification's words: the source region of the sprite,
chosen from the status and, for a revealed cell, from whether it has a mine. -/
def referenceRegion (st : Status) (hasMine : Bool) : Rectangle :=
  match st, hasMine with
  | Status.HIDDEN, _ => ⟨0, 0, 32, 32⟩
  | Status.MARKED, _ => ⟨64, 0, 32, 32⟩
  | Status.QMARK, _ => ⟨96, 0, 32, 32⟩
  | Status.REVEALED, false => ⟨32, 0, 32, 32⟩
  | Status.REVEALED, true => ⟨128, 0, 32, 32⟩

/-- Reference rendering, from the specification's words: the label of a cell, present when
the cell is revealed, has no mine and a positive count, and both a current font and the
font of that name at three quarters of the tile height are available; it is the decimal
count, centred in the tile by the size of its first character. -/
def referenceLabel (sw : ScreenWriter) (t : ClickableTile) (s : Session) : List DrawCall :=
  let c := s.board.At t.boardX t.boardY
  if c.status = Status.REVEALED ∧ c.hasMine = false ∧ 0 < c.adjacentMines then
    match sw.currentFont with
    | none => []
    | some cur =>
      match sw.getFont cur.name (s.tileHeight * 3 / 4) with
      | none => []
      | some f =>
        [DrawCall.Write f.name f.ptSize sw.color
          (t.x + (s.tileWidth : Int) / 2 -
            Int.tdiv (f.sizeText ((toString c.adjacentMines).get 0)).1 2)
          (t.y + (s.tileHeight : Int) / 2 -
            Int.tdiv (f.sizeText ((toString c.adjacentMines).get 0)).2 2)
          (toString c.adjacentMines)]
  else []

/-- Reference rendering, from the specification's words: the sprite scaled to the tile
rectangle, then the fade colour over it unless the cell is revealed, then the label. -/
def drawReference (sw : ScreenWriter) (t : ClickableTile) (s : Session) : List DrawCall :=
  let c := s.board.At t.boardX t.boardY
  let dst : Rectangle := ⟨t.x, t.y, t.width, t.height⟩
  [DrawCall.Draw (referenceRegion c.status c.hasMine) dst] ++
    (if c.status = Status.REVEALED then [] else [DrawCall.DrawFilledRect dst t.fadeColor]) ++
    referenceLabel sw t s

/-- Number of labels written (`sw.Write` calls) in a list of draw calls. -/
def labelsWritten (l : List DrawCall) : Nat :=
  l.countP fun c => match c with
    | DrawCall.Write _ _ _ _ _ _ => true
    | _ => false

/-- Number of fade overlays (`DrawFilledRect` calls) in a list of draw calls. -/
def overlaysDrawn (l : List DrawCall) : Nat :=
  l.countP fun c => match c with
    | DrawCall.DrawFilledRect _ _ => true
    | _ => false

/-- Both the current font and the font of its name at three quarters of the tile height
are available. -/
def fontsAvailable (sw : ScreenWriter) (s : Session) : Prop :=
  ∃ cur f, sw.currentFont = some cur ∧ sw.getFont cur.name (s.tileHeight * 3 / 4) = some f

/-- Deliver one event to every tile of a collection, in order, as the event loop does; the
tiles share the session. -/
def deliver (ops : BoardOps) (ev : SDL_Event) :
    List ClickableTile → Session → List ClickableTile × Session
  | [], s => ([], s)
  | t :: ts, s =>
    ((HandleInput ops t s ev).1 :: (deliver ops ev ts (HandleInput ops t s ev).2).1,
     (deliver ops ev ts (HandleInput ops t s ev).2).2)

/-- The half-open rectangles of two tiles share no point. -/
def RectsDisjoint (a b : ClickableTile) : Prop :=
  ∀ px py, ¬ (a.inRect px py ∧ b.inRect px py)

/-- Number of cells on the board whose status is `MARKED`. -/
def Board.countMarked (b : Board) : Nat :=
  ((List.range b.height).map fun y =>
    (List.range b.width).countP fun x => decide ((b.At x y).status = Status.MARKED)).sum

/-- One click dispatched to a tile: the left-click or the right-click handler. -/
inductive Click where
  | left (t : ClickableTile)
  | right (t : ClickableTile)

/-- Run the handler of one click on the session. -/
def stepClick (ops : BoardOps) (s : Session) : Click → Session
  | Click.left t => OnLeftClick ops t s
  | Click.right t => OnRightClick t s

/-- Run a sequence of clicks on the session, in order. -/
def runClicks (ops : BoardOps) (s : Session) (l : List Click) : Session :=
  l.foldl (stepClick ops) s

/-- A fresh session: every cell `HIDDEN`, the board not initialized, no flag counted. -/
def Session.Fresh (s : Session) : Prop :=
  s.board.initialized = false ∧ s.flagsUsed = 0 ∧
  ∀ x y, (s.board.At x y).status = Status.HIDDEN

/-- The tile of the click lies on the board. -/
def Click.onBoard (b : Board) : Click → Bool
  | Click.left t => decide (t.boardX < b.width) && decide (t.boardY < b.height)
  | Click.right t => decide (t.boardX < b.width) && decide (t.boardY < b.height)

/-- The click keeps the flags-used counter in step with the marked cells: its tile lies on
the board; a right-click comes only once the board is initialized (the first left-click
resets the counter to zero whatever is marked); a left-click does not land on a mined
cell of the initialized board (the losing path reveals marked mines and leaves the
counter). -/
def clickKeepsCount (s : Session) (c : Click) : Bool :=
  c.onBoard s.board &&
  match c with
  | Click.right _ => s.board.initialized
  | Click.left t => !(s.board.initialized && (s.board.At t.boardX t.boardY).hasMine)

/-- Every click of the sequence keeps the count at the moment it is dispatched. -/
def clicksKeepCount (ops : BoardOps) (s : Session) : List Click → Bool
  | [] => true
  | c :: l => clickKeepsCount s c && clicksKeepCount ops (stepClick ops s c) l

/-- The flags-used counter equals the number of `MARKED` cells, and nothing is marked while
the board is not initialized. -/
def FlagsInv (s : Session) : Prop :=
  s.flagsUsed = (s.board.countMarked : Int) ∧
  (s.board.initialized = false → s.board.countMarked = 0)

/-! ## Concrete sessions used in the examples -/

/-- A tile spanning `(0,0)-(32,32)` over board cell `(0,0)`. -/
def tile00 : ClickableTile := ClickableTile.new 0 0 32 32 0 0 100 200

/-- A tile spanning `(32,0)-(64,32)` over board cell `(1,0)`. -/
def tile10 : ClickableTile := ClickableTile.new 32 0 32 32 1 0 100 200

/-- A fresh `2 × 1` board: both cells hidden, no mines, not initialized. -/
def freshBoard : Board :=
  { width := 2, height := 1, mineCount := 0, revealedTiles := 0, initialized := false,
    cells := fun _ _ => ⟨Status.HIDDEN, false, 0⟩ }

/-- An initialized `2 × 1` board with one mine: cell `(0,0)` has the mine and status `st0`,
cell `(1,0)` has no mine, one mined neighbour and status `st1`; no cell is counted as
revealed. -/
def minedBoard (st0 st1 : Status) : Board :=
  { width := 2, height := 1, mineCount := 1, revealedTiles := 0, initialized := true,
    cells := fun i _ => if i = 0 then ⟨st0, true, 0⟩ else ⟨st1, false, 1⟩ }

/-- A session around a board, with an empty trace and no flag used. -/
def sessionOf (b : Board) : Session :=
  { board := b, flagsUsed := 0, mineCount := 1, tileWidth := 32, tileHeight := 32,
    timerStarted := false, trace := [] }

/-- A button event of the given type and button at `(x, y)`. -/
def buttonEvent (ty : EventType) (button : Nat) (x y : Int) : SDL_Event :=
  { type := ty, button := button, x := x, y := y, xrel := 0, yrel := 0 }

/-- The random draw that proposes a mine for every cell. -/
def allMines : Nat → Nat → Bool := fun _ _ => true

/-- A pointer-motion event ending at `(x, y)` after a relative motion `(xrel, yrel)`. -/
def motionEvent (x y xrel yrel : Int) : SDL_Event :=
  { type := EventType.MOUSEMOTION, button := 0, x := x, y := y, xrel := xrel, yrel := yrel }

/-- The tile `(0,0)-(32,32)` right after the pointer moved into it from `(-5,5)` to
`(5,5)`: fading in, alpha level `50`, fade colour alpha `0`. -/
def hoveredTile : ClickableTile :=
  (HandleInput (specOps allMines) tile00 (sessionOf freshBoard) (motionEvent 5 5 10 0)).1

/-- Hover, press, hold for 100 ms, release: the pointer enters the tile `(0,0)-(32,32)`,
the left button goes down at `(5,5)`, one frame of 100 ticks passes, and the button is
released at `(5,5)`. -/
def heldClick : List TileInput :=
  [TileInput.event (motionEvent 5 5 10 0),
   TileInput.event (buttonEvent EventType.MOUSEBUTTONDOWN 1 5 5),
   TileInput.tick 100,
   TileInput.event (buttonEvent EventType.MOUSEBUTTONUP 1 5 5)]

/-- Hover and leave without a click: the pointer enters the tile `(0,0)-(32,32)`, a frame
of 100 ticks passes, the left button goes down at `(5,5)`, the pointer leaves to
`(100,100)`, the button is released there, and a frame of 1000 ticks passes. -/
def hoverAndLeave : List TileInput :=
  [TileInput.event (motionEvent 5 5 10 0),
   TileInput.tick 100,
   TileInput.event (buttonEvent EventType.MOUSEBUTTONDOWN 1 5 5),
   TileInput.event (motionEvent 100 100 95 95),
   TileInput.event (buttonEvent EventType.MOUSEBUTTONUP 1 100 100),
   TileInput.tick 1000]

/-- The hovered tile `(0,0)-(32,32)` right after a press inside it: fading in, alpha level
`100`, black fade colour, press captured. -/
def pressedTile : ClickableTile :=
  { tile00 with doFadeInEffect := true, currentAlpha := 100,
                fadeColor := ⟨0, 0, 0, toUint8 100⟩, clickedInTile := true }

/-- A text writer with no font loaded. -/
def noFonts : ScreenWriter :=
  { currentFont := none, getFont := fun _ _ => none, color := ⟨255, 255, 255, 255⟩ }

/-- The tile `(0,0)-(32,32)` holding a captured press. -/
def tile00Pressed : ClickableTile := { tile00 with clickedInTile := true }

/-- The tile `(32,0)-(64,32)` holding a captured press. -/
def tile10Pressed : ClickableTile := { tile10 with clickedInTile := true }

/-- A game without a losing click: first left-click on tile `(0,0)`, two right-clicks on
tile `(1,0)` (mark, then question mark), a right-click on tile `(1,0)` back to hidden and
one more to mark it again, and a left-click on the revealed tile `(0,0)`. -/
def flaggingGame : List Click :=
  [Click.left tile00, Click.right tile10, Click.right tile10, Click.right tile10,
   Click.right tile10, Click.left tile00]

/-! ## Basic facts about the trace and the handlers -/

theorem contains_iff (t : ClickableTile) (px py : Int) :
    t.contains px py = true ↔ t.inRect px py := by
  simp [ClickableTile.contains, ClickableTile.inRect, and_assoc]

theorem winCheck_board (s : Session) : (winCheck s).board = s.board := by
  unfold winCheck
  simp only []
  split <;> rfl

theorem winCheck_flagsUsed (s : Session) : (winCheck s).flagsUsed = s.flagsUsed := by
  unfold winCheck
  simp only []
  split <;> rfl

theorem winCheck_trace (s : Session) :
    (winCheck s).trace = s.trace ++ (if s.board.won then [Call.PushState true] else []) := by
  unfold winCheck Board.won
  simp only []
  split <;> simp [Session.emit]

/-- The first-click path: the board is not initialized. -/
theorem OnLeftClick_uninitialized (ops : BoardOps) (t : ClickableTile) (s : Session)
    (h : s.board.initialized = false) :
    OnLeftClick ops t s =
      winCheck
        { board := (ops.RevealFrom (ops.Initialize s.board t.boardX t.boardY s.mineCount)
            t.boardX t.boardY).1
          flagsUsed := 0
          mineCount := s.mineCount
          tileWidth := s.tileWidth
          tileHeight := s.tileHeight
          timerStarted := true
          trace := s.trace ++
            [Call.OnLeftClick t.boardX t.boardY,
             Call.BoardInitialize t.boardX t.boardY s.mineCount,
             Call.SpawnClearEffects t.boardX t.boardY ⟨0, 0, 32, 32⟩,
             Call.BoardRevealFrom t.boardX t.boardY,
             Call.PlaySound
               (if (ops.RevealFrom (ops.Initialize s.board t.boardX t.boardY s.mineCount)
                  t.boardX t.boardY).2 = 1 then Sound.single else Sound.clear),
             Call.SetFlagsUsed 0,
             Call.StartTimer] } := by
  unfold OnLeftClick
  simp only [Session.emit, h, Bool.not_false, if_true]
  split <;> simp

/-- The reveal path: initialized board, cell without a mine and not yet revealed. -/
theorem OnLeftClick_reveal (ops : BoardOps) (t : ClickableTile) (s : Session)
    (h : s.board.initialized = true) (hm : (s.board.At t.boardX t.boardY).hasMine = false)
    (hs : (s.board.At t.boardX t.boardY).status ≠ Status.REVEALED) :
    OnLeftClick ops t s =
      winCheck
        { s with
          board := (ops.RevealFrom s.board t.boardX t.boardY).1
          trace := s.trace ++
            [Call.OnLeftClick t.boardX t.boardY,
             Call.SpawnClearEffects t.boardX t.boardY ⟨0, 0, 32, 32⟩,
             Call.BoardRevealFrom t.boardX t.boardY,
             Call.PlaySound Sound.clear] } := by
  unfold OnLeftClick
  simp [Session.emit, h, hm, hs]

/-- The losing path: initialized board, cell with a mine. -/
theorem OnLeftClick_mine (ops : BoardOps) (t : ClickableTile) (s : Session)
    (h : s.board.initialized = true) (hm : (s.board.At t.boardX t.boardY).hasMine = true) :
    OnLeftClick ops t s =
      { s with
        board := revealAllMines s.board
        trace := s.trace ++
          [Call.OnLeftClick t.boardX t.boardY, Call.PlaySound Sound.lose,
           Call.PushState false] } := by
  unfold OnLeftClick
  simp [Session.emit, h, hm]

/-- The remaining path: initialized board, cell without a mine that is already revealed. -/
theorem OnLeftClick_revealed (ops : BoardOps) (t : ClickableTile) (s : Session)
    (h : s.board.initialized = true) (hm : (s.board.At t.boardX t.boardY).hasMine = false)
    (hs : (s.board.At t.boardX t.boardY).status = Status.REVEALED) :
    OnLeftClick ops t s =
      winCheck { s with trace := s.trace ++ [Call.OnLeftClick t.boardX t.boardY] } := by
  unfold OnLeftClick
  simp [Session.emit, h, hm, hs]

/-- The four paths of `OnLeftClick` cover every session. -/
theorem OnLeftClick_cases (t : ClickableTile) (s : Session) :
    s.board.initialized = false ∨
    (s.board.initialized = true ∧ (s.board.At t.boardX t.boardY).hasMine = false ∧
      (s.board.At t.boardX t.boardY).status ≠ Status.REVEALED) ∨
    (s.board.initialized = true ∧ (s.board.At t.boardX t.boardY).hasMine = true) ∨
    (s.board.initialized = true ∧ (s.board.At t.boardX t.boardY).hasMine = false ∧
      (s.board.At t.boardX t.boardY).status = Status.REVEALED) := by
  cases s.board.initialized <;> cases (s.board.At t.boardX t.boardY).hasMine <;>
    by_cases hs : (s.board.At t.boardX t.boardY).status = Status.REVEALED <;> simp [hs]

theorem OnLeftClick_clicks (ops : BoardOps) (t : ClickableTile) (s : Session) :
    leftClicks (OnLeftClick ops t s).trace = leftClicks s.trace + 1 ∧
    rightClicks (OnLeftClick ops t s).trace = rightClicks s.trace := by
  rcases OnLeftClick_cases t s with h | ⟨h, hm, hs⟩ | ⟨h, hm⟩ | ⟨h, hm, hs⟩
  · rw [OnLeftClick_uninitialized ops t s h, winCheck_trace]
    split <;> simp [leftClicks, rightClicks, List.countP_append, List.countP_cons]
  · rw [OnLeftClick_reveal ops t s h hm hs, winCheck_trace]
    split <;> simp [leftClicks, rightClicks, List.countP_append, List.countP_cons]
  · rw [OnLeftClick_mine ops t s h hm]
    simp [leftClicks, rightClicks, List.countP_append, List.countP_cons]
  · rw [OnLeftClick_revealed ops t s h hm hs, winCheck_trace]
    split <;> simp [leftClicks, rightClicks, List.countP_append, List.countP_cons]

theorem OnRightClick_clicks (t : ClickableTile) (s : Session) :
    rightClicks (OnRightClick t s).trace = rightClicks s.trace + 1 ∧
    leftClicks (OnRightClick t s).trace = leftClicks s.trace := by
  unfold OnRightClick
  simp only []
  split <;> simp [Session.emit, leftClicks, rightClicks, List.countP_append]

/-- A pointer-down inside the rectangle captures the press and leaves the session alone. -/
theorem HandleInput_down_inside (ops : BoardOps) (t : ClickableTile) (s : Session)
    (ev : SDL_Event) (hty : ev.type = EventType.MOUSEBUTTONDOWN)
    (hin : t.contains ev.x ev.y = true) :
    HandleInput ops t s ev =
      ({ t with currentAlpha := t.maxAlpha, fadeColor := ⟨0, 0, 0, toUint8 t.maxAlpha⟩,
                clickedInTile := true }, s) := by
  unfold HandleInput
  simp [hty, hin]

/-- A pointer-down outside the rectangle changes nothing. -/
theorem HandleInput_down_outside (ops : BoardOps) (t : ClickableTile) (s : Session)
    (ev : SDL_Event) (hty : ev.type = EventType.MOUSEBUTTONDOWN)
    (hout : t.contains ev.x ev.y = false) :
    HandleInput ops t s ev = (t, s) := by
  unfold HandleInput
  simp [hty, hout]

/-- A pointer-up inside the rectangle of a tile that captured a press: the click branch. -/
theorem HandleInput_up_click (ops : BoardOps) (t : ClickableTile) (s : Session)
    (ev : SDL_Event) (hty : ev.type = EventType.MOUSEBUTTONUP)
    (hin : t.contains ev.x ev.y = true) (hcap : t.clickedInTile = true) :
    HandleInput ops t s ev =
      (if ev.button = SDL_BUTTON_LEFT then
        ({ t with clickedInTile := false, fadeColor := ⟨255, 255, 255, toUint8 t.currentAlpha⟩ },
          OnLeftClick ops
            { t with clickedInTile := false,
                     fadeColor := ⟨255, 255, 255, toUint8 t.currentAlpha⟩ } s)
       else if ev.button = SDL_BUTTON_RIGHT then
        ({ t with clickedInTile := false, fadeColor := ⟨255, 255, 255, toUint8 t.currentAlpha⟩ },
          OnRightClick
            { t with clickedInTile := false,
                     fadeColor := ⟨255, 255, 255, toUint8 t.currentAlpha⟩ } s)
       else
        ({ t with clickedInTile := false, fadeColor := ⟨255, 255, 255, toUint8 t.currentAlpha⟩ },
          s)) := by
  unfold HandleInput
  simp [hty, hin, hcap]

/-- Any other pointer-up only clears the press-capture flag. -/
theorem HandleInput_up_cancel (ops : BoardOps) (t : ClickableTile) (s : Session)
    (ev : SDL_Event) (hty : ev.type = EventType.MOUSEBUTTONUP)
    (h : t.contains ev.x ev.y = false ∨ t.clickedInTile = false) :
    HandleInput ops t s ev = ({ t with clickedInTile := false }, s) := by
  unfold HandleInput
  rcases h with h | h <;> simp [hty, h]

/-- `OnMouseEnter` touches neither the board nor the flags-used counter nor the click
entries of the trace. -/
theorem OnMouseEnter_session (t : ClickableTile) (s : Session) :
    (OnMouseEnter t s).2.board = s.board ∧ (OnMouseEnter t s).2.flagsUsed = s.flagsUsed ∧
    leftClicks (OnMouseEnter t s).2.trace = leftClicks s.trace ∧
    rightClicks (OnMouseEnter t s).2.trace = rightClicks s.trace := by
  unfold OnMouseEnter
  simp only [Session.emit]
  split <;> simp [leftClicks, rightClicks, List.countP_append, List.countP_cons]

/-- Outside the click branch `HandleInput` runs no click handler and leaves the board and
the flags-used counter alone. -/
theorem HandleInput_no_click (ops : BoardOps) (t : ClickableTile) (s : Session)
    (ev : SDL_Event)
    (h : ¬ (ev.type = EventType.MOUSEBUTTONUP ∧ t.contains ev.x ev.y = true ∧
      t.clickedInTile = true)) :
    (HandleInput ops t s ev).2.board = s.board ∧
    (HandleInput ops t s ev).2.flagsUsed = s.flagsUsed ∧
    leftClicks (HandleInput ops t s ev).2.trace = leftClicks s.trace ∧
    rightClicks (HandleInput ops t s ev).2.trace = rightClicks s.trace := by
  unfold HandleInput
  rw [if_neg h]
  simp only []
  split_ifs <;> first | exact ⟨rfl, rfl, rfl, rfl⟩ | exact OnMouseEnter_session t s

/-! ## The input state machine -/

/-- C1: a pointer-down (any button) inside the tile's half-open rectangle followed by a
pointer-up of the left or right button inside the same rectangle dispatches exactly one
click: the press changes nothing in the session, the release runs `OnLeftClick` once (and
`OnRightClick` not at all) when the button is the left one, `OnRightClick` once (and
`OnLeftClick` not at all) when it is the right one, and the tile ends idle. -/
theorem press_release_inside_dispatches_one_click (ops : BoardOps) (t : ClickableTile)
    (s : Session) (down up : SDL_Event)
    (hdown : down.type = EventType.MOUSEBUTTONDOWN) (hup : up.type = EventType.MOUSEBUTTONUP)
    (hdin : t.inRect down.x down.y) (huin : t.inRect up.x up.y) :
    (HandleInput ops t s down).2 = s ∧
    (HandleInput ops (HandleInput ops t s down).1 (HandleInput ops t s down).2 up).1.clickedInTile
      = false ∧
    (up.button = SDL_BUTTON_LEFT →
      (HandleInput ops (HandleInput ops t s down).1 (HandleInput ops t s down).2 up).2 =
        OnLeftClick ops
          (HandleInput ops (HandleInput ops t s down).1 (HandleInput ops t s down).2 up).1 s ∧
      leftClicks
        (HandleInput ops (HandleInput ops t s down).1 (HandleInput ops t s down).2 up).2.trace =
        leftClicks s.trace + 1 ∧
      rightClicks
        (HandleInput ops (HandleInput ops t s down).1 (HandleInput ops t s down).2 up).2.trace =
        rightClicks s.trace) ∧
    (up.button = SDL_BUTTON_RIGHT →
      (HandleInput ops (HandleInput ops t s down).1 (HandleInput ops t s down).2 up).2 =
        OnRightClick
          (HandleInput ops (HandleInput ops t s down).1 (HandleInput ops t s down).2 up).1 s ∧
      rightClicks
        (HandleInput ops (HandleInput ops t s down).1 (HandleInput ops t s down).2 up).2.trace =
        rightClicks s.trace + 1 ∧
      leftClicks
        (HandleInput ops (HandleInput ops t s down).1 (HandleInput ops t s down).2 up).2.trace =
        leftClicks s.trace) := by
  have hd := (contains_iff t down.x down.y).2 hdin
  have hu := (contains_iff t up.x up.y).2 huin
  rw [HandleInput_down_inside ops t s down hdown hd]
  have hu' : ClickableTile.contains
      { t with currentAlpha := t.maxAlpha, fadeColor := ⟨0, 0, 0, toUint8 t.maxAlpha⟩,
               clickedInTile := true } up.x up.y = true := hu
  rw [HandleInput_up_click ops _ s up hup hu' rfl]
  refine ⟨rfl, ?_, ?_, ?_⟩
  · split_ifs <;> rfl
  · intro hl
    rw [if_pos hl]
    exact ⟨rfl, OnLeftClick_clicks ops _ s⟩
  · intro hr
    have hl : up.button ≠ SDL_BUTTON_LEFT := by
      rw [hr]; decide
    rw [if_neg hl, if_pos hr]
    exact ⟨rfl, OnRightClick_clicks _ s⟩

/-- Witness for C1: tile `(0,0)-(32,32)`, left press at `(5,5)`, left release at `(20,7)`,
on a fresh board: one left click, no right click, tile idle. -/
theorem press_release_inside_dispatches_one_click_witness :
    tile00.inRect 5 5 ∧ tile00.inRect 20 7 ∧
    (HandleInput (specOps allMines)
      (HandleInput (specOps allMines) tile00 (sessionOf freshBoard)
        (buttonEvent EventType.MOUSEBUTTONDOWN 1 5 5)).1
      (HandleInput (specOps allMines) tile00 (sessionOf freshBoard)
        (buttonEvent EventType.MOUSEBUTTONDOWN 1 5 5)).2
      (buttonEvent EventType.MOUSEBUTTONUP 1 20 7)).1.clickedInTile = false ∧
    leftClicks
      (HandleInput (specOps allMines)
        (HandleInput (specOps allMines) tile00 (sessionOf freshBoard)
          (buttonEvent EventType.MOUSEBUTTONDOWN 1 5 5)).1
        (HandleInput (specOps allMines) tile00 (sessionOf freshBoard)
          (buttonEvent EventType.MOUSEBUTTONDOWN 1 5 5)).2
        (buttonEvent EventType.MOUSEBUTTONUP 1 20 7)).2.trace = 0 + 1 ∧
    rightClicks
      (HandleInput (specOps allMines)
        (HandleInput (specOps allMines) tile00 (sessionOf freshBoard)
          (buttonEvent EventType.MOUSEBUTTONDOWN 1 5 5)).1
        (HandleInput (specOps allMines) tile00 (sessionOf freshBoard)
          (buttonEvent EventType.MOUSEBUTTONDOWN 1 5 5)).2
        (buttonEvent EventType.MOUSEBUTTONUP 1 20 7)).2.trace = 0 :=
  have h := press_release_inside_dispatches_one_click (specOps allMines) tile00
    (sessionOf freshBoard) (buttonEvent EventType.MOUSEBUTTONDOWN 1 5 5)
    (buttonEvent EventType.MOUSEBUTTONUP 1 20 7) rfl rfl (by decide) (by decide)
  ⟨by decide, by decide, h.2.1, (h.2.2.1 rfl).2.1, (h.2.2.1 rfl).2.2⟩

/-- C2: a pointer-down inside the tile's rectangle followed by a pointer-up anywhere
outside it dispatches no click, returns the tile to idle and leaves the whole session
(board, flags-used counter and trace) exactly as it was. -/
theorem press_inside_release_outside_cancels (ops : BoardOps) (t : ClickableTile)
    (s : Session) (down up : SDL_Event)
    (hdown : down.type = EventType.MOUSEBUTTONDOWN) (hup : up.type = EventType.MOUSEBUTTONUP)
    (hdin : t.inRect down.x down.y) (huout : ¬ t.inRect up.x up.y) :
    (HandleInput ops (HandleInput ops t s down).1 (HandleInput ops t s down).2 up).2 = s ∧
    clicks (HandleInput ops (HandleInput ops t s down).1 (HandleInput ops t s down).2 up).2.trace
      = clicks s.trace ∧
    (HandleInput ops (HandleInput ops t s down).1 (HandleInput ops t s down).2 up).2.board
      = s.board ∧
    (HandleInput ops (HandleInput ops t s down).1 (HandleInput ops t s down).2 up).2.flagsUsed
      = s.flagsUsed ∧
    (HandleInput ops (HandleInput ops t s down).1 (HandleInput ops t s down).2 up).1.clickedInTile
      = false := by
  have hd := (contains_iff t down.x down.y).2 hdin
  have hu : t.contains up.x up.y = false := by
    rw [Bool.eq_false_iff]
    exact fun h => huout ((contains_iff t up.x up.y).1 h)
  rw [HandleInput_down_inside ops t s down hdown hd]
  have hu' : ClickableTile.contains
      { t with currentAlpha := t.maxAlpha, fadeColor := ⟨0, 0, 0, toUint8 t.maxAlpha⟩,
               clickedInTile := true } up.x up.y = false := hu
  rw [HandleInput_up_cancel ops _ s up hup (Or.inl hu')]
  exact ⟨rfl, rfl, rfl, rfl, rfl⟩

/-- Witness for C2: the tile spanning `(0,0)-(32,32)`, press at `(5,5)`, release at
`(100,100)`. -/
theorem press_inside_release_outside_cancels_witness :
    tile00.inRect 5 5 ∧ ¬ tile00.inRect 100 100 ∧
    (HandleInput (specOps allMines)
      (HandleInput (specOps allMines) tile00 (sessionOf freshBoard)
        (buttonEvent EventType.MOUSEBUTTONDOWN 1 5 5)).1
      (HandleInput (specOps allMines) tile00 (sessionOf freshBoard)
        (buttonEvent EventType.MOUSEBUTTONDOWN 1 5 5)).2
      (buttonEvent EventType.MOUSEBUTTONUP 1 100 100)).2 = sessionOf freshBoard ∧
    (HandleInput (specOps allMines)
      (HandleInput (specOps allMines) tile00 (sessionOf freshBoard)
        (buttonEvent EventType.MOUSEBUTTONDOWN 1 5 5)).1
      (HandleInput (specOps allMines) tile00 (sessionOf freshBoard)
        (buttonEvent EventType.MOUSEBUTTONDOWN 1 5 5)).2
      (buttonEvent EventType.MOUSEBUTTONUP 1 100 100)).1.clickedInTile = false :=
  have h := press_inside_release_outside_cancels (specOps allMines) tile00
    (sessionOf freshBoard) (buttonEvent EventType.MOUSEBUTTONDOWN 1 5 5)
    (buttonEvent EventType.MOUSEBUTTONUP 1 100 100) rfl rfl (by decide) (by decide)
  ⟨by decide, by decide, h.1, h.2.2.2.2⟩

/-- C3 (press-capture): `HandleInput` dispatches a click only for a pointer-up inside the
rectangle of a tile whose press-capture flag is set; for every other pair of a tile state
and an event (a pointer-up inside a tile that captured no press, a pointer-up outside, a
pointer-down, a pointer-motion, any other event) no click handler runs and the board and
the flags-used counter are unchanged.  In particular, for two tiles `A` and `B` with
disjoint rectangles, `B` having captured no press, a press inside `A` followed by a
release inside `B`, each delivered to both tiles, leaves the session as it was (neither
tile is clicked) and both tiles idle. -/
theorem press_capture (ops : BoardOps) (t : ClickableTile) (s : Session) (ev : SDL_Event) :
    (clicks (HandleInput ops t s ev).2.trace ≠ clicks s.trace →
      ev.type = EventType.MOUSEBUTTONUP ∧ t.inRect ev.x ev.y ∧ t.clickedInTile = true) ∧
    (¬ (ev.type = EventType.MOUSEBUTTONUP ∧ t.inRect ev.x ev.y ∧ t.clickedInTile = true) →
      leftClicks (HandleInput ops t s ev).2.trace = leftClicks s.trace ∧
      rightClicks (HandleInput ops t s ev).2.trace = rightClicks s.trace ∧
      (HandleInput ops t s ev).2.board = s.board ∧
      (HandleInput ops t s ev).2.flagsUsed = s.flagsUsed) ∧
    (∀ (A B : ClickableTile) (down up : SDL_Event),
      down.type = EventType.MOUSEBUTTONDOWN → up.type = EventType.MOUSEBUTTONUP →
      (∀ px py, ¬ (A.inRect px py ∧ B.inRect px py)) →
      A.inRect down.x down.y → B.inRect up.x up.y → B.clickedInTile = false →
      (HandleInput ops (HandleInput ops B (HandleInput ops A s down).2 down).1
        (HandleInput ops (HandleInput ops A s down).1
          (HandleInput ops B (HandleInput ops A s down).2 down).2 up).2 up).2 = s ∧
      (HandleInput ops (HandleInput ops A s down).1
          (HandleInput ops B (HandleInput ops A s down).2 down).2 up).1.clickedInTile = false ∧
      (HandleInput ops (HandleInput ops B (HandleInput ops A s down).2 down).1
        (HandleInput ops (HandleInput ops A s down).1
          (HandleInput ops B (HandleInput ops A s down).2 down).2 up).2 up).1.clickedInTile
        = false) := by
  have key : ¬ (ev.type = EventType.MOUSEBUTTONUP ∧ t.inRect ev.x ev.y ∧
      t.clickedInTile = true) →
      leftClicks (HandleInput ops t s ev).2.trace = leftClicks s.trace ∧
      rightClicks (HandleInput ops t s ev).2.trace = rightClicks s.trace ∧
      (HandleInput ops t s ev).2.board = s.board ∧
      (HandleInput ops t s ev).2.flagsUsed = s.flagsUsed := by
    intro h
    have h' : ¬ (ev.type = EventType.MOUSEBUTTONUP ∧ t.contains ev.x ev.y = true ∧
        t.clickedInTile = true) := by
      rw [contains_iff]; exact h
    obtain ⟨h1, h2, h3, h4⟩ := HandleInput_no_click ops t s ev h'
    exact ⟨h3, h4, h1, h2⟩
  refine ⟨?_, key, ?_⟩
  · intro hne
    by_contra hcon
    obtain ⟨h1, h2, _, _⟩ := key hcon
    exact hne (by unfold clicks; rw [h1, h2])
  · intro A B down up hdown hup hdisj hA hB hBidle
    have hAd := (contains_iff A down.x down.y).2 hA
    have hBd : B.contains down.x down.y = false := by
      rw [Bool.eq_false_iff]
      exact fun h => hdisj _ _ ⟨hA, (contains_iff B down.x down.y).1 h⟩
    have hAu : A.contains up.x up.y = false := by
      rw [Bool.eq_false_iff]
      exact fun h => hdisj _ _ ⟨(contains_iff A up.x up.y).1 h, hB⟩
    rw [HandleInput_down_inside ops A s down hdown hAd,
      HandleInput_down_outside ops B s down hdown hBd]
    have hAu' : ClickableTile.contains
        { A with currentAlpha := A.maxAlpha, fadeColor := ⟨0, 0, 0, toUint8 A.maxAlpha⟩,
                 clickedInTile := true } up.x up.y = false := hAu
    rw [HandleInput_up_cancel ops _ s up hup (Or.inl hAu'),
      HandleInput_up_cancel ops B s up hup (Or.inr hBidle)]
    exact ⟨rfl, rfl, rfl⟩

/-- Witness for C3: press at `(5,5)` in the tile `(0,0)-(32,32)`, release at `(40,5)` over
the neighbouring tile `(32,0)-(64,32)`: the session is unchanged. -/
theorem press_capture_witness :
    tile00.inRect 5 5 ∧ tile10.inRect 40 5 ∧ tile10.clickedInTile = false ∧
    (HandleInput (specOps allMines)
      (HandleInput (specOps allMines) tile10
        (HandleInput (specOps allMines) tile00 (sessionOf freshBoard)
          (buttonEvent EventType.MOUSEBUTTONDOWN 1 5 5)).2
        (buttonEvent EventType.MOUSEBUTTONDOWN 1 5 5)).1
      (HandleInput (specOps allMines)
        (HandleInput (specOps allMines) tile00 (sessionOf freshBoard)
          (buttonEvent EventType.MOUSEBUTTONDOWN 1 5 5)).1
        (HandleInput (specOps allMines) tile10
          (HandleInput (specOps allMines) tile00 (sessionOf freshBoard)
            (buttonEvent EventType.MOUSEBUTTONDOWN 1 5 5)).2
          (buttonEvent EventType.MOUSEBUTTONDOWN 1 5 5)).2
        (buttonEvent EventType.MOUSEBUTTONUP 1 40 5)).2
      (buttonEvent EventType.MOUSEBUTTONUP 1 40 5)).2 = sessionOf freshBoard :=
  ⟨by decide, by decide, rfl,
    ((press_capture (specOps allMines) tile00 (sessionOf freshBoard)
      (buttonEvent EventType.MOUSEBUTTONDOWN 1 5 5)).2.2 tile00 tile10
      (buttonEvent EventType.MOUSEBUTTONDOWN 1 5 5) (buttonEvent EventType.MOUSEBUTTONUP 1 40 5)
      rfl rfl
      (by
        intro px py h
        have h1 := h.1.2.1
        have h2 := h.2.1
        simp only [tile00, tile10, ClickableTile.new] at h1 h2
        omega)
      (by decide) (by decide) rfl).1⟩

/-! ## The losing path -/

theorem markIf_markIf (P Q : Prop) [Decidable P] [Decidable Q] (c : Tile) :
    Tile.markIf Q (Tile.markIf P c) = Tile.markIf (P ∨ Q) c := by
  unfold Tile.markIf
  by_cases hP : P <;> by_cases hQ : Q <;> cases h : c.hasMine <;> simp [hP, hQ, h]

theorem markIf_congr (P Q : Prop) [Decidable P] [Decidable Q] (c : Tile) (h : P ↔ Q) :
    Tile.markIf P c = Tile.markIf Q c := by
  unfold Tile.markIf
  by_cases hP : P
  · simp [hP, h.1 hP]
  · have hQ : ¬ Q := fun hq => hP (h.2 hq)
    simp [hP, hQ]

theorem markIf_false (P : Prop) [Decidable P] (c : Tile) (h : ¬ P) : Tile.markIf P c = c := by
  simp [Tile.markIf, h]

theorem SameFields_refl (b : Board) : Board.SameFields b b := ⟨rfl, rfl, rfl, rfl, rfl⟩

theorem SameFields_trans {a b c : Board} (h1 : Board.SameFields a b)
    (h2 : Board.SameFields b c) : Board.SameFields a c :=
  ⟨h1.1.trans h2.1, h1.2.1.trans h2.2.1, h1.2.2.1.trans h2.2.2.1,
    h1.2.2.2.1.trans h2.2.2.2.1, h1.2.2.2.2.trans h2.2.2.2.2⟩

/-- The loop body writes at most the status of the cell it visits. -/
theorem revealIfMined_spec (b : Board) (x y : Nat) :
    Board.SameFields (revealIfMined b x y) b ∧
    ∀ i j, (revealIfMined b x y).cells i j = Tile.markIf (i = x ∧ j = y) (b.cells i j) := by
  unfold revealIfMined Board.At
  cases h : (b.cells x y).hasMine
  · refine ⟨SameFields_refl b, fun i j => ?_⟩
    unfold Tile.markIf
    by_cases hij : i = x ∧ j = y
    · obtain ⟨rfl, rfl⟩ := hij
      simp [h]
    · simp [hij]
  · refine ⟨⟨rfl, rfl, rfl, rfl, rfl⟩, fun i j => ?_⟩
    unfold Tile.markIf Board.setStatus
    by_cases hij : i = x ∧ j = y
    · obtain ⟨rfl, rfl⟩ := hij
      simp [h]
    · simp [hij]

/-- One row of the reveal-all-mines loop, over a list of columns. -/
theorem revealRow_spec (xs : List Nat) (y : Nat) (b : Board) :
    Board.SameFields (xs.foldl (fun acc x => revealIfMined acc x y) b) b ∧
    ∀ i j, (xs.foldl (fun acc x => revealIfMined acc x y) b).cells i j =
      Tile.markIf (j = y ∧ i ∈ xs) (b.cells i j) := by
  induction xs generalizing b with
  | nil =>
    refine ⟨SameFields_refl b, fun i j => ?_⟩
    rw [markIf_false]
    · rfl
    · simp
  | cons x xs ih =>
    rw [List.foldl_cons]
    obtain ⟨hf, hc⟩ := ih (revealIfMined b x y)
    obtain ⟨hf0, hc0⟩ := revealIfMined_spec b x y
    refine ⟨SameFields_trans hf hf0, fun i j => ?_⟩
    rw [hc, hc0, markIf_markIf]
    apply markIf_congr
    simp only [List.mem_cons]
    tauto

/-- The whole reveal-all-mines loop over lists of rows and columns. -/
theorem revealRows_spec (ys xs : List Nat) (b : Board) :
    Board.SameFields
      (ys.foldl (fun acc y => xs.foldl (fun acc x => revealIfMined acc x y) acc) b) b ∧
    ∀ i j, (ys.foldl (fun acc y => xs.foldl (fun acc x => revealIfMined acc x y) acc) b).cells
      i j = Tile.markIf (j ∈ ys ∧ i ∈ xs) (b.cells i j) := by
  induction ys generalizing b with
  | nil =>
    refine ⟨SameFields_refl b, fun i j => ?_⟩
    rw [markIf_false]
    · rfl
    · simp
  | cons y ys ih =>
    rw [List.foldl_cons]
    obtain ⟨hf, hc⟩ := ih (xs.foldl (fun acc x => revealIfMined acc x y) b)
    obtain ⟨hf0, hc0⟩ := revealRow_spec xs y b
    refine ⟨SameFields_trans hf hf0, fun i j => ?_⟩
    rw [hc, hc0, markIf_markIf]
    apply markIf_congr
    simp only [List.mem_cons]
    tauto

/-- What the reveal-all-mines loop does to every cell: a cell on the board with a mine
becomes `REVEALED` and keeps its other fields, every other cell stays. -/
theorem revealAllMines_cells (b : Board) (i j : Nat) :
    (revealAllMines b).At i j =
      if i < b.width ∧ j < b.height ∧ (b.At i j).hasMine = true then
        { b.At i j with status := Status.REVEALED }
      else b.At i j := by
  have h := (revealRows_spec (List.range b.height) (List.range b.width) b).2 i j
  unfold revealAllMines Board.At
  rw [h]
  unfold Tile.markIf
  simp only [List.mem_range]
  by_cases h1 : i < b.width <;> by_cases h2 : j < b.height <;> simp [h1, h2]

/-- The reveal-all-mines loop writes no board field other than cell statuses. -/
theorem revealAllMines_fields (b : Board) : Board.SameFields (revealAllMines b) b :=
  (revealRows_spec (List.range b.height) (List.range b.width) b).1

theorem winCheck_signals (s : Session) :
    winSignals (winCheck s).trace = winSignals s.trace + (if s.board.won then 1 else 0) ∧
    lossSignals (winCheck s).trace = lossSignals s.trace := by
  rw [winCheck_trace]
  split <;> simp [winSignals, lossSignals, List.count_append]

/-- A left-click that is not a losing click ends in the win check, reached with no
transition signalled so far in the call. -/
theorem OnLeftClick_non_losing (ops : BoardOps) (t : ClickableTile) (s : Session)
    (h : s.board.initialized = false ∨ (s.board.At t.boardX t.boardY).hasMine = false) :
    ∃ s1, OnLeftClick ops t s = winCheck s1 ∧ winSignals s1.trace = winSignals s.trace ∧
      lossSignals s1.trace = lossSignals s.trace := by
  rcases OnLeftClick_cases t s with hi | ⟨hi, hm, hs⟩ | ⟨hi, hm⟩ | ⟨hi, hm, hs⟩
  · exact ⟨_, OnLeftClick_uninitialized ops t s hi,
      by simp [winSignals, List.count_append], by simp [lossSignals, List.count_append]⟩
  · exact ⟨_, OnLeftClick_reveal ops t s hi hm hs,
      by simp [winSignals, List.count_append], by simp [lossSignals, List.count_append]⟩
  · rcases h with h | h
    · rw [h] at hi; cases hi
    · rw [h] at hm; cases hm
  · exact ⟨_, OnLeftClick_revealed ops t s hi hm hs,
      by simp [winSignals, List.count_append], by simp [lossSignals, List.count_append]⟩

/-- C4: on an initialized board, a left-click on a tile whose cell has a mine leaves every
mined cell of the board `REVEALED` (the mined cells being the same before and after),
signals exactly one loss transition and no win transition, and leaves every cell without
a mine as it was. -/
theorem left_click_on_mine_loses (ops : BoardOps) (t : ClickableTile) (s : Session)
    (hinit : s.board.initialized = true)
    (hmine : (s.board.At t.boardX t.boardY).hasMine = true) :
    (OnLeftClick ops t s).board.width = s.board.width ∧
    (OnLeftClick ops t s).board.height = s.board.height ∧
    (∀ x y, ((OnLeftClick ops t s).board.At x y).hasMine = (s.board.At x y).hasMine) ∧
    (∀ x y, x < s.board.width → y < s.board.height →
      ((OnLeftClick ops t s).board.At x y).hasMine = true →
      ((OnLeftClick ops t s).board.At x y).status = Status.REVEALED) ∧
    lossSignals (OnLeftClick ops t s).trace = lossSignals s.trace + 1 ∧
    winSignals (OnLeftClick ops t s).trace = winSignals s.trace ∧
    (∀ x y, (s.board.At x y).hasMine = false →
      (OnLeftClick ops t s).board.At x y = s.board.At x y) := by
  rw [OnLeftClick_mine ops t s hinit hmine]
  have hf := revealAllMines_fields s.board
  have hmineEq : ∀ x y, ((revealAllMines s.board).At x y).hasMine = (s.board.At x y).hasMine := by
    intro x y
    rw [revealAllMines_cells]
    split <;> rfl
  refine ⟨hf.1, hf.2.1, hmineEq, ?_, ?_, ?_, ?_⟩
  · intro x y hx hy hm
    have hm' : (s.board.At x y).hasMine = true := by rw [← hmineEq x y]; exact hm
    show ((revealAllMines s.board).At x y).status = Status.REVEALED
    rw [revealAllMines_cells, if_pos ⟨hx, hy, hm'⟩]
  · simp [lossSignals, List.count_append]
  · simp [winSignals, List.count_append]
  · intro x y hm
    show (revealAllMines s.board).At x y = s.board.At x y
    rw [revealAllMines_cells, if_neg]
    rintro ⟨_, _, h⟩
    rw [hm] at h
    cases h

/-- Witness for C4: the initialized `2 × 1` board with a hidden mine under tile `(0,0)`. -/
theorem left_click_on_mine_loses_witness :
    (sessionOf (minedBoard Status.HIDDEN Status.HIDDEN)).board.initialized = true ∧
    ((sessionOf (minedBoard Status.HIDDEN Status.HIDDEN)).board.At tile00.boardX tile00.boardY).hasMine
      = true ∧
    lossSignals
      (OnLeftClick (specOps allMines) tile00 (sessionOf (minedBoard Status.HIDDEN Status.HIDDEN))).trace
      = lossSignals (sessionOf (minedBoard Status.HIDDEN Status.HIDDEN)).trace + 1 ∧
    winSignals
      (OnLeftClick (specOps allMines) tile00 (sessionOf (minedBoard Status.HIDDEN Status.HIDDEN))).trace
      = winSignals (sessionOf (minedBoard Status.HIDDEN Status.HIDDEN)).trace :=
  have h := left_click_on_mine_loses (specOps allMines) tile00
    (sessionOf (minedBoard Status.HIDDEN Status.HIDDEN)) rfl rfl
  ⟨rfl, rfl, h.2.2.2.2.1, h.2.2.2.2.2.1⟩

/-! ## The first click and the win check -/

/-- C5: on a board that is not yet initialized, a left-click signals no loss transition
and does not take the reveal-all-mines path, whatever `Initialize` and `RevealFrom` do:
the loss sound is not played, and the board after the call is exactly the board that
`RevealFrom` returned after `Initialize` (the controller writes no cell of its own). -/
theorem first_click_never_loses (ops : BoardOps) (t : ClickableTile) (s : Session)
    (h : s.board.initialized = false) :
    lossSignals (OnLeftClick ops t s).trace = lossSignals s.trace ∧
    (OnLeftClick ops t s).trace.count (Call.PlaySound Sound.lose) =
      s.trace.count (Call.PlaySound Sound.lose) ∧
    (OnLeftClick ops t s).board =
      (ops.RevealFrom (ops.Initialize s.board t.boardX t.boardY s.mineCount)
        t.boardX t.boardY).1 := by
  rw [OnLeftClick_uninitialized ops t s h]
  refine ⟨?_, ?_, ?_⟩
  · rw [(winCheck_signals _).2]
    simp [lossSignals, List.count_append]
  · rw [winCheck_trace]
    split <;> split <;> simp [List.count_append]
  · rw [winCheck_board]

/-- Witness for C5: the first click on the fresh `2 × 1` board. -/
theorem first_click_never_loses_witness :
    (sessionOf freshBoard).board.initialized = false ∧
    lossSignals (OnLeftClick (specOps allMines) tile00 (sessionOf freshBoard)).trace =
      lossSignals (sessionOf freshBoard).trace :=
  ⟨rfl, (first_click_never_loses (specOps allMines) tile00 (sessionOf freshBoard) rfl).1⟩

/-- C6: a left-click that is not a losing click (the board was not initialized, or the
clicked cell has no mine) signals no loss; it signals a win transition, exactly one, if
and only if the board after the call satisfies `revealedTiles = width*height - mineCount`,
and none otherwise; so it signals at most one transition. -/
theorem non_losing_click_wins_iff_won (ops : BoardOps) (t : ClickableTile) (s : Session)
    (h : s.board.initialized = false ∨ (s.board.At t.boardX t.boardY).hasMine = false) :
    lossSignals (OnLeftClick ops t s).trace = lossSignals s.trace ∧
    (winSignals (OnLeftClick ops t s).trace = winSignals s.trace + 1 ↔
      (OnLeftClick ops t s).board.revealedTiles =
        ((OnLeftClick ops t s).board.width : Int) * ((OnLeftClick ops t s).board.height : Int)
          - (OnLeftClick ops t s).board.mineCount) ∧
    (winSignals (OnLeftClick ops t s).trace = winSignals s.trace ↔
      ¬ (OnLeftClick ops t s).board.revealedTiles =
        ((OnLeftClick ops t s).board.width : Int) * ((OnLeftClick ops t s).board.height : Int)
          - (OnLeftClick ops t s).board.mineCount) ∧
    lossSignals (OnLeftClick ops t s).trace + winSignals (OnLeftClick ops t s).trace ≤
      lossSignals s.trace + winSignals s.trace + 1 := by
  obtain ⟨s1, hs1, hw, hl⟩ := OnLeftClick_non_losing ops t s h
  rw [hs1, winCheck_board]
  obtain ⟨hws, hls⟩ := winCheck_signals s1
  rw [hws, hls, hw, hl]
  change _ ∧ (_ ↔ s1.board.won) ∧ (_ ↔ ¬ s1.board.won) ∧ _
  by_cases hwon : s1.board.won
  · simp [hwon]
    omega
  · simp [hwon]

/-- Witness for C6: the first click on the fresh `2 × 1` board. -/
theorem non_losing_click_wins_iff_won_witness :
    ((sessionOf freshBoard).board.initialized = false ∨
      ((sessionOf freshBoard).board.At tile00.boardX tile00.boardY).hasMine = false) ∧
    lossSignals (OnLeftClick (specOps allMines) tile00 (sessionOf freshBoard)).trace =
      lossSignals (sessionOf freshBoard).trace :=
  ⟨Or.inl rfl,
    (non_losing_click_wins_iff_won (specOps allMines) tile00 (sessionOf freshBoard)
      (Or.inl rfl)).1⟩

/-! ## The flag cycle -/

/-- Right-click on a `HIDDEN` cell. -/
theorem OnRightClick_hidden (t : ClickableTile) (s : Session)
    (h : (s.board.At t.boardX t.boardY).status = Status.HIDDEN) :
    OnRightClick t s =
      { s with
        board := s.board.setStatus t.boardX t.boardY Status.MARKED
        flagsUsed := s.flagsUsed + 1
        trace := s.trace ++ [Call.OnRightClick t.boardX t.boardY, Call.IncrementFlagsUsed,
          Call.PlaySound Sound.bip] } := by
  unfold OnRightClick
  simp [Session.emit, h]

/-- Right-click on a `MARKED` cell. -/
theorem OnRightClick_marked (t : ClickableTile) (s : Session)
    (h : (s.board.At t.boardX t.boardY).status = Status.MARKED) :
    OnRightClick t s =
      { s with
        board := s.board.setStatus t.boardX t.boardY Status.QMARK
        flagsUsed := s.flagsUsed - 1
        trace := s.trace ++ [Call.OnRightClick t.boardX t.boardY, Call.DecrementFlagsUsed,
          Call.PlaySound Sound.bip] } := by
  unfold OnRightClick
  simp [Session.emit, h]

/-- Right-click on a `QMARK` cell. -/
theorem OnRightClick_qmark (t : ClickableTile) (s : Session)
    (h : (s.board.At t.boardX t.boardY).status = Status.QMARK) :
    OnRightClick t s =
      { s with
        board := s.board.setStatus t.boardX t.boardY Status.HIDDEN
        trace := s.trace ++ [Call.OnRightClick t.boardX t.boardY,
          Call.PlaySound Sound.bip] } := by
  unfold OnRightClick
  simp [Session.emit, h]

/-- Right-click on a `REVEALED` cell. -/
theorem OnRightClick_revealed (t : ClickableTile) (s : Session)
    (h : (s.board.At t.boardX t.boardY).status = Status.REVEALED) :
    OnRightClick t s = { s with trace := s.trace ++ [Call.OnRightClick t.boardX t.boardY] } := by
  unfold OnRightClick
  simp [Session.emit, h]

/-- Writing a status into a cell, as the reference step writes it. -/
theorem setStatus_eq (b : Board) (x y : Nat) (st : Status) :
    b.setStatus x y st =
      { width := b.width, height := b.height, mineCount := b.mineCount,
        revealedTiles := b.revealedTiles, initialized := b.initialized,
        cells := fun i j =>
          if i = x ∧ j = y then
            { status := st, hasMine := (b.cells x y).hasMine,
              adjacentMines := (b.cells x y).adjacentMines }
          else b.cells i j } := by
  unfold Board.setStatus
  congr 1
  funext i j
  by_cases hij : i = x ∧ j = y
  · obtain ⟨rfl, rfl⟩ := hij
    simp
  · simp [hij]

/-- The board and the flags-used counter after `OnRightClick` are those of the reference
flag-cycle step. -/
theorem OnRightClick_eq_step (t : ClickableTile) (s : Session) :
    ((OnRightClick t s).board, (OnRightClick t s).flagsUsed) =
      flagCycleStep s.board s.flagsUsed t.boardX t.boardY := by
  cases h : (s.board.At t.boardX t.boardY).status
  · rw [OnRightClick_hidden t s h]
    have h' : (s.board.cells t.boardX t.boardY).status = Status.HIDDEN := h
    simp [flagCycleStep, h', flagCycleNext, flagCycleDelta, setStatus_eq]
  · rw [OnRightClick_revealed t s h]
    have h' : (s.board.cells t.boardX t.boardY).status = Status.REVEALED := h
    simp only [flagCycleStep, h', flagCycleNext, flagCycleDelta, add_zero]
    congr 1
    cases hb : s.board with
    | mk w hh m r ini cells =>
      simp only [Board.mk.injEq, true_and]
      funext i j
      by_cases hij : i = t.boardX ∧ j = t.boardY
      · obtain ⟨rfl, rfl⟩ := hij
        rw [hb] at h'
        simp only [and_self, if_true]
        rw [← h']
      · simp [hij]
  · rw [OnRightClick_marked t s h]
    have h' : (s.board.cells t.boardX t.boardY).status = Status.MARKED := h
    simp [flagCycleStep, h', flagCycleNext, flagCycleDelta, setStatus_eq, sub_eq_add_neg]
  · rw [OnRightClick_qmark t s h]
    have h' : (s.board.cells t.boardX t.boardY).status = Status.QMARK := h
    simp [flagCycleStep, h', flagCycleNext, flagCycleDelta, setStatus_eq]

/-- The sounds and the trace entries of `OnRightClick`, and the session fields it leaves
alone. -/
theorem OnRightClick_frame (t : ClickableTile) (s : Session) :
    soundsPlayed (OnRightClick t s).trace =
      soundsPlayed s.trace + flagCycleBlips (s.board.At t.boardX t.boardY).status ∧
    (OnRightClick t s).trace.count (Call.PlaySound Sound.bip) =
      s.trace.count (Call.PlaySound Sound.bip) +
        flagCycleBlips (s.board.At t.boardX t.boardY).status ∧
    (OnRightClick t s).mineCount = s.mineCount ∧
    (OnRightClick t s).timerStarted = s.timerStarted ∧
    lossSignals (OnRightClick t s).trace = lossSignals s.trace ∧
    winSignals (OnRightClick t s).trace = winSignals s.trace := by
  cases h : (s.board.At t.boardX t.boardY).status
  · rw [OnRightClick_hidden t s h]
    simp [soundsPlayed, flagCycleBlips, lossSignals, winSignals, List.countP_append,
      List.countP_cons, List.count_append]
  · rw [OnRightClick_revealed t s h]
    simp [soundsPlayed, flagCycleBlips, lossSignals, winSignals, List.countP_append,
      List.countP_cons, List.count_append]
  · rw [OnRightClick_marked t s h]
    simp [soundsPlayed, flagCycleBlips, lossSignals, winSignals, List.countP_append,
      List.countP_cons, List.count_append]
  · rw [OnRightClick_qmark t s h]
    simp [soundsPlayed, flagCycleBlips, lossSignals, winSignals, List.countP_append,
      List.countP_cons, List.count_append]

/-- Three reference steps on the same cell give back the board and the counter. -/
theorem flagCycleStep_thrice (b : Board) (n : Int) (x y : Nat) :
    flagCycleStep
      (flagCycleStep (flagCycleStep b n x y).1 (flagCycleStep b n x y).2 x y).1
      (flagCycleStep (flagCycleStep b n x y).1 (flagCycleStep b n x y).2 x y).2 x y = (b, n) := by
  cases b with
  | mk w hh m r ini cells =>
    cases h : (cells x y).status <;>
    · simp only [flagCycleStep, h, flagCycleNext, flagCycleDelta, and_self, if_true]
      rw [Prod.mk.injEq]
      refine ⟨?_, by ring⟩
      simp only [Board.mk.injEq, true_and]
      funext i j
      by_cases hij : i = x ∧ j = y
      · obtain ⟨rfl, rfl⟩ := hij
        simp only [and_self, if_true]
        rw [← h]
      · simp [hij]

/-- C7: `OnRightClick` is the reference flag-cycle step on the session state: the board and
the flags-used counter after the call are those of `flagCycleStep`; the cell's new status
and the counter's change are functions of the old status alone (`HIDDEN` to `MARKED` with
`+1`, `MARKED` to `QMARK` with `-1`, `QMARK` to `HIDDEN` with `0`), so they do not depend
on `hasMine` or on the initialization flag; one blip is played except on a `REVEALED`
cell, where the board and the counter are unchanged and no sound is played; no other
cell, no `hasMine` or `adjacentMines` field and no other board field (the revealed
counter included) changes. -/
theorem right_click_is_flag_cycle_step (t : ClickableTile) (s : Session) :
    ((OnRightClick t s).board, (OnRightClick t s).flagsUsed) =
      flagCycleStep s.board s.flagsUsed t.boardX t.boardY ∧
    ((OnRightClick t s).board.At t.boardX t.boardY).status =
      flagCycleNext (s.board.At t.boardX t.boardY).status ∧
    (OnRightClick t s).flagsUsed =
      s.flagsUsed + flagCycleDelta (s.board.At t.boardX t.boardY).status ∧
    soundsPlayed (OnRightClick t s).trace =
      soundsPlayed s.trace + flagCycleBlips (s.board.At t.boardX t.boardY).status ∧
    (OnRightClick t s).trace.count (Call.PlaySound Sound.bip) =
      s.trace.count (Call.PlaySound Sound.bip) +
        flagCycleBlips (s.board.At t.boardX t.boardY).status ∧
    ((s.board.At t.boardX t.boardY).status = Status.REVEALED →
      (OnRightClick t s).board = s.board ∧ (OnRightClick t s).flagsUsed = s.flagsUsed ∧
      soundsPlayed (OnRightClick t s).trace = soundsPlayed s.trace) ∧
    (∀ s2 : Session,
      (s2.board.At t.boardX t.boardY).status = (s.board.At t.boardX t.boardY).status →
      ((OnRightClick t s2).board.At t.boardX t.boardY).status =
        ((OnRightClick t s).board.At t.boardX t.boardY).status ∧
      (OnRightClick t s2).flagsUsed - s2.flagsUsed = (OnRightClick t s).flagsUsed - s.flagsUsed) ∧
    (∀ x y, ¬ (x = t.boardX ∧ y = t.boardY) →
      (OnRightClick t s).board.At x y = s.board.At x y) ∧
    (∀ x y, ((OnRightClick t s).board.At x y).hasMine = (s.board.At x y).hasMine ∧
      ((OnRightClick t s).board.At x y).adjacentMines = (s.board.At x y).adjacentMines) ∧
    Board.SameFields (OnRightClick t s).board s.board := by
  have hstep : ∀ s' : Session,
      (OnRightClick t s').board = (flagCycleStep s'.board s'.flagsUsed t.boardX t.boardY).1 ∧
      (OnRightClick t s').flagsUsed =
        (flagCycleStep s'.board s'.flagsUsed t.boardX t.boardY).2 := fun s' =>
    ⟨congrArg Prod.fst (OnRightClick_eq_step t s'), congrArg Prod.snd (OnRightClick_eq_step t s')⟩
  have hstatus : ∀ s' : Session, ((OnRightClick t s').board.At t.boardX t.boardY).status =
      flagCycleNext (s'.board.At t.boardX t.boardY).status := by
    intro s'
    rw [(hstep s').1]
    simp [flagCycleStep, Board.At]
  have hflags : ∀ s' : Session, (OnRightClick t s').flagsUsed =
      s'.flagsUsed + flagCycleDelta (s'.board.At t.boardX t.boardY).status := by
    intro s'
    rw [(hstep s').2]
    rfl
  obtain ⟨hsound, hbip, _, _, _, _⟩ := OnRightClick_frame t s
  refine ⟨OnRightClick_eq_step t s, hstatus s, hflags s, hsound, hbip, ?_, ?_, ?_, ?_, ?_⟩
  · intro hrev
    rw [OnRightClick_revealed t s hrev]
    refine ⟨rfl, rfl, ?_⟩
    simp [soundsPlayed, List.countP_append, List.countP_cons]
  · intro s2 h2
    refine ⟨?_, ?_⟩
    · rw [hstatus s2, hstatus s, h2]
    · rw [hflags s2, hflags s, h2]
      ring
  · intro x y hxy
    rw [(hstep s).1]
    simp [flagCycleStep, Board.At, hxy]
  · intro x y
    rw [(hstep s).1]
    by_cases hxy : x = t.boardX ∧ y = t.boardY
    · obtain ⟨rfl, rfl⟩ := hxy
      simp [flagCycleStep, Board.At]
    · simp [flagCycleStep, Board.At, hxy]
  · rw [(hstep s).1]
    exact ⟨rfl, rfl, rfl, rfl, rfl⟩

/-- C8: the flag cycle is a closed loop of three states: on a tile whose cell is `HIDDEN`,
`MARKED` or `QMARK`, three right-clicks in a row give back the identical board and the
starting value of the flags-used counter. -/
theorem flag_cycle_closed (t : ClickableTile) (s : Session)
    (h : (s.board.At t.boardX t.boardY).status = Status.HIDDEN ∨
      (s.board.At t.boardX t.boardY).status = Status.MARKED ∨
      (s.board.At t.boardX t.boardY).status = Status.QMARK) :
    (OnRightClick t (OnRightClick t (OnRightClick t s))).board = s.board ∧
    (OnRightClick t (OnRightClick t (OnRightClick t s))).flagsUsed = s.flagsUsed ∧
    (OnRightClick t s).board ≠ s.board ∧
    (OnRightClick t (OnRightClick t s)).board ≠ s.board := by
  have h1 := OnRightClick_eq_step t s
  have h2 := OnRightClick_eq_step t (OnRightClick t s)
  have h3 := OnRightClick_eq_step t (OnRightClick t (OnRightClick t s))
  have hb1 := congrArg Prod.fst h1
  have hf1 := congrArg Prod.snd h1
  have hb2 := congrArg Prod.fst h2
  have hf2 := congrArg Prod.snd h2
  simp only at hb1 hf1 hb2 hf2
  rw [hb2, hf2, hb1, hf1, flagCycleStep_thrice] at h3
  have hb3 := congrArg Prod.fst h3
  have hf3 := congrArg Prod.snd h3
  simp only at hb3 hf3
  have hs1 : ((OnRightClick t s).board.At t.boardX t.boardY).status =
      flagCycleNext (s.board.At t.boardX t.boardY).status := by
    rw [hb1]; simp [flagCycleStep, Board.At]
  have hs2 : ((OnRightClick t (OnRightClick t s)).board.At t.boardX t.boardY).status =
      flagCycleNext (flagCycleNext (s.board.At t.boardX t.boardY).status) := by
    rw [← hs1, hb2]; simp [flagCycleStep, Board.At]
  refine ⟨hb3, hf3, ?_, ?_⟩
  · intro heq
    rw [heq] at hs1
    rcases h with h | h | h <;> rw [h] at hs1 <;> cases hs1
  · intro heq
    rw [heq] at hs2
    rcases h with h | h | h <;> rw [h] at hs2 <;> cases hs2

/-- Witness for C8: three right-clicks on the hidden cell `(0,0)` of the fresh board. -/
theorem flag_cycle_closed_witness :
    ((sessionOf freshBoard).board.At tile00.boardX tile00.boardY).status = Status.HIDDEN ∧
    (OnRightClick tile00 (OnRightClick tile00 (OnRightClick tile00 (sessionOf freshBoard)))).board
      = (sessionOf freshBoard).board ∧
    (OnRightClick tile00
      (OnRightClick tile00 (OnRightClick tile00 (sessionOf freshBoard)))).flagsUsed
      = (sessionOf freshBoard).flagsUsed :=
  have h := flag_cycle_closed tile00 (sessionOf freshBoard) (Or.inl rfl)
  ⟨rfl, h.1, h.2.1⟩

/-! ## Counting revealed cells -/

theorem countP_point_update (xs : List Nat) (hnd : xs.Nodup) (p q : Nat → Bool) (x0 : Nat)
    (hx0 : x0 ∈ xs) (hq : q x0 = true) (hp : p x0 = false)
    (hother : ∀ x, x ≠ x0 → q x = p x) : xs.countP q = xs.countP p + 1 := by
  induction xs with
  | nil => cases hx0
  | cons a xs ih =>
    rw [List.nodup_cons] at hnd
    by_cases ha : a = x0
    · subst ha
      have hrest : xs.countP q = xs.countP p :=
        List.countP_congr fun x hx => by
          have hne : x ≠ a := fun h => hnd.1 (h ▸ hx)
          rw [hother x hne]
      rw [List.countP_cons_of_pos _ _ hq, List.countP_cons_of_neg _ _ (by simp [hp]), hrest]
    · have hmem : x0 ∈ xs := by
        rcases List.mem_cons.1 hx0 with h | h
        · exact absurd h.symm ha
        · exact h
      have h := ih hnd.2 hmem
      rw [List.countP_cons, List.countP_cons, h, hother a ha]
      omega

theorem sum_map_point_update (ys : List Nat) (hnd : ys.Nodup) (f g : Nat → Nat) (y0 : Nat)
    (hy0 : y0 ∈ ys) (hg : g y0 = f y0 + 1) (hother : ∀ y, y ≠ y0 → g y = f y) :
    (ys.map g).sum = (ys.map f).sum + 1 := by
  induction ys with
  | nil => cases hy0
  | cons a ys ih =>
    rw [List.nodup_cons] at hnd
    by_cases ha : a = y0
    · subst ha
      have hrest : ys.map g = ys.map f :=
        List.map_congr_left fun y hy => hother y fun h => hnd.1 (h ▸ hy)
      simp only [List.map_cons, List.sum_cons, hrest, hg]
      omega
    · have hmem : y0 ∈ ys := by
        rcases List.mem_cons.1 hy0 with h | h
        · exact absurd h.symm ha
        · exact h
      have h := ih hnd.2 hmem
      simp only [List.map_cons, List.sum_cons, h, hother a ha]
      omega

/-- The count of revealed cells depends only on the grid size and on which cells of the
grid are revealed. -/
theorem countRevealed_congr (b c : Board) (hw : c.width = b.width) (hh : c.height = b.height)
    (hcell : ∀ x y, x < b.width → y < b.height →
      ((c.At x y).status = Status.REVEALED ↔ (b.At x y).status = Status.REVEALED)) :
    c.countRevealed = b.countRevealed := by
  unfold Board.countRevealed
  rw [hw, hh]
  congr 1
  apply List.map_congr_left
  intro y hy
  apply List.countP_congr
  intro x hx
  have := hcell x y (List.mem_range.1 hx) (List.mem_range.1 hy)
  simp [this]

/-- Revealing one cell of the grid that was not revealed raises the count by one. -/
theorem countRevealed_setStatus (b : Board) (x0 y0 : Nat) (hx : x0 < b.width)
    (hy : y0 < b.height) (hs : (b.At x0 y0).status ≠ Status.REVEALED) :
    (b.setStatus x0 y0 Status.REVEALED).countRevealed = b.countRevealed + 1 := by
  unfold Board.countRevealed
  show ((List.range b.height).map fun y => (List.range b.width).countP fun x =>
      decide (((b.setStatus x0 y0 Status.REVEALED).At x y).status = Status.REVEALED)).sum = _
  apply sum_map_point_update _ (List.nodup_range _) _ _ y0 (List.mem_range.2 hy)
  · apply countP_point_update _ (List.nodup_range _) _ _ x0 (List.mem_range.2 hx)
    · simp [Board.setStatus, Board.At]
    · simpa using hs
    · intro x hne
      simp [Board.setStatus, Board.At, hne]
  · intro y hne
    apply List.countP_congr
    intro x _
    simp [Board.setStatus, Board.At, hne]

theorem countP_eq_iff_of_imp (xs : List Nat) (p q : Nat → Bool)
    (h : ∀ x ∈ xs, p x = true → q x = true) :
    xs.countP q = xs.countP p ↔ ∀ x ∈ xs, q x = true → p x = true := by
  induction xs with
  | nil => simp
  | cons a xs ih =>
    have hle : xs.countP p ≤ xs.countP q :=
      List.countP_mono_left fun x hx hpx => h x (List.mem_cons_of_mem _ hx) hpx
    have ih' := ih fun x hx => h x (List.mem_cons_of_mem _ hx)
    have ha := h a (List.mem_cons_self _ _)
    rw [List.countP_cons, List.countP_cons, List.forall_mem_cons]
    cases hp : p a <;> cases hq : q a
    · simp [ih']
    · simp only [if_true, Bool.false_eq_true, if_false, forall_true_left, false_and, iff_false]
      omega
    · rw [hp] at ha
      rw [ha rfl] at hq
      cases hq
    · simp [ih']

theorem sum_map_eq_iff_of_le (ys : List Nat) (f g : Nat → Nat) (h : ∀ y ∈ ys, f y ≤ g y) :
    (ys.map g).sum = (ys.map f).sum ↔ ∀ y ∈ ys, g y = f y := by
  induction ys with
  | nil => simp
  | cons a ys ih =>
    have hle : (ys.map f).sum ≤ (ys.map g).sum :=
      List.sum_le_sum fun y hy => h y (List.mem_cons_of_mem _ hy)
    have ih' := ih fun y hy => h y (List.mem_cons_of_mem _ hy)
    have ha := h a (List.mem_cons_self _ _)
    simp only [List.map_cons, List.sum_cons, List.forall_mem_cons]
    constructor
    · intro heq
      have h1 : g a = f a := by omega
      exact ⟨h1, ih'.1 (by omega)⟩
    · rintro ⟨h1, h2⟩
      rw [h1, ih'.2 h2]

/-- After the reveal-all-mines loop the count of revealed cells is the old one exactly
when every mined cell of the grid was already revealed. -/
theorem countRevealed_revealAllMines (b : Board) :
    (revealAllMines b).countRevealed = b.countRevealed ↔
      ∀ x y, x < b.width → y < b.height → (b.At x y).hasMine = true →
        (b.At x y).status = Status.REVEALED := by
  have hf := revealAllMines_fields b
  have hcell : ∀ x y, x < b.width → y < b.height →
      (decide (((revealAllMines b).At x y).status = Status.REVEALED) = true ↔
        ((b.At x y).status = Status.REVEALED ∨ (b.At x y).hasMine = true)) := by
    intro x y hx hy
    rw [revealAllMines_cells]
    by_cases hm : (b.At x y).hasMine = true
    · simp [hx, hy, hm]
    · simp [hm]
  unfold Board.countRevealed
  rw [hf.1, hf.2.1]
  rw [sum_map_eq_iff_of_le]
  · constructor
    · intro hall x y hx hy hm
      have h1 := hall y (List.mem_range.2 hy)
      rw [countP_eq_iff_of_imp] at h1
      · have h2 := h1 x (List.mem_range.2 hx) ((hcell x y hx hy).2 (Or.inr hm))
        simpa using h2
      · intro x' hx' hp
        exact (hcell x' y (List.mem_range.1 hx') hy).2 (Or.inl (by simpa using hp))
    · intro hall y hy
      have hy' := List.mem_range.1 hy
      rw [countP_eq_iff_of_imp]
      · intro x hx hq
        have hx' := List.mem_range.1 hx
        rcases (hcell x y hx' hy').1 hq with h | h
        · simpa using h
        · simpa using hall x y hx' hy' h
      · intro x' hx' hp
        exact (hcell x' y (List.mem_range.1 hx') hy').2 (Or.inl (by simpa using hp))
  · intro y hy
    apply List.countP_mono_left
    intro x hx hp
    exact (hcell x y (List.mem_range.1 hx) (List.mem_range.1 hy)).2 (Or.inl (by simpa using hp))

/-! ## The board algorithms of the specification keep the counter invariant -/

theorem Initialize_CounterInv (layout : Nat → Nat → Bool) (b : Board) (x y : Nat) (m : Int)
    (h : b.CounterInv) : (Board.Initialize layout b x y m).CounterInv := by
  unfold Board.CounterInv at *
  have hc : (Board.Initialize layout b x y m).countRevealed = b.countRevealed :=
    countRevealed_congr b _ rfl rfl fun _ _ _ _ => Iff.rfl
  rw [hc]
  exact h

theorem revealLoop_CounterInv (fuel : Nat) (work : List (Nat × Nat)) (b : Board) (n : Int)
    (h : b.CounterInv) : (Board.revealLoop fuel work b n).1.CounterInv := by
  induction fuel generalizing work b n with
  | zero => unfold Board.revealLoop; exact h
  | succ fuel ih =>
    cases work with
    | nil => unfold Board.revealLoop; exact h
    | cons c rest =>
      obtain ⟨x, y⟩ := c
      unfold Board.revealLoop
      by_cases hc : x < b.width ∧ y < b.height ∧ (b.At x y).status = Status.HIDDEN
      · rw [if_pos hc]
        have hb1 : Board.CounterInv
            { b.setStatus x y Status.REVEALED with revealedTiles := b.revealedTiles + 1 } := by
          unfold Board.CounterInv at *
          have hcount : Board.countRevealed
              { b.setStatus x y Status.REVEALED with revealedTiles := b.revealedTiles + 1 } =
              b.countRevealed + 1 := by
            rw [← countRevealed_setStatus b x y hc.1 hc.2.1 (by rw [hc.2.2]; decide)]
            exact countRevealed_congr _ _ rfl rfl fun _ _ _ _ => Iff.rfl
          rw [hcount, h]
          push_cast
          rfl
        simp only []
        split
        · exact ih _ _ _ hb1
        · exact ih _ _ _ hb1
      · rw [if_neg hc]
        exact ih _ _ _ h

theorem RevealFrom_CounterInv (b : Board) (x y : Nat) (h : b.CounterInv) :
    (Board.RevealFrom b x y).1.CounterInv :=
  revealLoop_CounterInv _ _ b 0 h

/-- The flood fill of the specification rejects a cell that is not `HIDDEN` (revealed or
flagged): the board is returned as it was, with count `0`. -/
theorem RevealFrom_not_hidden (b : Board) (x y : Nat)
    (h : (b.At x y).status ≠ Status.HIDDEN) : Board.RevealFrom b x y = (b, 0) := by
  unfold Board.RevealFrom
  unfold Board.revealLoop
  rw [if_neg (fun hc => h hc.2.2)]
  cases (9 * b.width * b.height) <;> unfold Board.revealLoop <;> rfl

/-! ## Left-click on a flagged cell -/

/-- C9, as stated, fails on a flagged cell that has a mine: on the initialized `2 × 1`
board whose cell `(0,0)` is `MARKED` and mined, a left-click on that tile is not
rejected: the cell becomes `REVEALED` and one loss transition is signalled. -/
theorem left_click_on_flagged_mine_loses :
    (sessionOf (minedBoard Status.MARKED Status.QMARK)).board.initialized = true ∧
    ((sessionOf (minedBoard Status.MARKED Status.QMARK)).board.At
      tile00.boardX tile00.boardY).status = Status.MARKED ∧
    ((OnLeftClick (specOps allMines) tile00
      (sessionOf (minedBoard Status.MARKED Status.QMARK))).board.At
      tile00.boardX tile00.boardY).status = Status.REVEALED ∧
    lossSignals (OnLeftClick (specOps allMines) tile00
      (sessionOf (minedBoard Status.MARKED Status.QMARK))).trace =
      lossSignals (sessionOf (minedBoard Status.MARKED Status.QMARK)).trace + 1 := by
  refine ⟨rfl, rfl, ?_, ?_⟩
  · rw [OnLeftClick_mine (specOps allMines) tile00
      (sessionOf (minedBoard Status.MARKED Status.QMARK)) rfl rfl]
    show ((revealAllMines (minedBoard Status.MARKED Status.QMARK)).At 0 0).status = _
    rw [revealAllMines_cells]
    decide
  · rw [OnLeftClick_mine (specOps allMines) tile00
      (sessionOf (minedBoard Status.MARKED Status.QMARK)) rfl rfl]
    decide

/-- C9, amended: on an initialized board, a left-click on a tile whose cell is flagged
(`MARKED` or `QMARK`) and has no mine is rejected, provided `RevealFrom` is a no-op on a
flagged cell as the specification describes it: the board is unchanged (no cell becomes
`REVEALED`), the flags-used counter is unchanged and no loss transition is signalled. -/
theorem left_click_on_flagged_safe_cell_rejected (ops : BoardOps) (t : ClickableTile)
    (s : Session)
    (hRev : ∀ b x y, ((b.At x y).status = Status.MARKED ∨ (b.At x y).status = Status.QMARK) →
      ops.RevealFrom b x y = (b, 0))
    (hinit : s.board.initialized = true)
    (hflag : (s.board.At t.boardX t.boardY).status = Status.MARKED ∨
      (s.board.At t.boardX t.boardY).status = Status.QMARK)
    (hsafe : (s.board.At t.boardX t.boardY).hasMine = false) :
    (OnLeftClick ops t s).board = s.board ∧
    (∀ x y, ((OnLeftClick ops t s).board.At x y).status = (s.board.At x y).status) ∧
    (OnLeftClick ops t s).flagsUsed = s.flagsUsed ∧
    lossSignals (OnLeftClick ops t s).trace = lossSignals s.trace := by
  have hs : (s.board.At t.boardX t.boardY).status ≠ Status.REVEALED := by
    rcases hflag with h | h <;> rw [h] <;> decide
  have hb : (OnLeftClick ops t s).board = s.board := by
    rw [OnLeftClick_reveal ops t s hinit hsafe hs, winCheck_board]
    show (ops.RevealFrom s.board t.boardX t.boardY).1 = s.board
    rw [hRev s.board t.boardX t.boardY hflag]
  refine ⟨hb, fun x y => by rw [hb], ?_, ?_⟩
  · rw [OnLeftClick_reveal ops t s hinit hsafe hs, winCheck_flagsUsed]
  · rw [OnLeftClick_reveal ops t s hinit hsafe hs, (winCheck_signals _).2]
    simp [lossSignals, List.count_append]

/-- Witness for C9: the left-click on the `QMARK` cell `(1,0)`, which has no mine, with the
flood fill of the specification. -/
theorem left_click_on_flagged_safe_cell_rejected_witness :
    (sessionOf (minedBoard Status.MARKED Status.QMARK)).board.initialized = true ∧
    ((sessionOf (minedBoard Status.MARKED Status.QMARK)).board.At
      tile10.boardX tile10.boardY).status = Status.QMARK ∧
    ((sessionOf (minedBoard Status.MARKED Status.QMARK)).board.At
      tile10.boardX tile10.boardY).hasMine = false ∧
    (OnLeftClick (specOps allMines) tile10
      (sessionOf (minedBoard Status.MARKED Status.QMARK))).board =
      (sessionOf (minedBoard Status.MARKED Status.QMARK)).board ∧
    lossSignals (OnLeftClick (specOps allMines) tile10
      (sessionOf (minedBoard Status.MARKED Status.QMARK))).trace =
      lossSignals (sessionOf (minedBoard Status.MARKED Status.QMARK)).trace :=
  have h := left_click_on_flagged_safe_cell_rejected (specOps allMines) tile10
    (sessionOf (minedBoard Status.MARKED Status.QMARK))
    (fun b x y hf => RevealFrom_not_hidden b x y (by
      rcases hf with hf | hf <;> rw [hf] <;> decide))
    rfl (Or.inr rfl) rfl
  ⟨rfl, rfl, rfl, h.1, h.2.2.2⟩

/-! ## The revealed-cell counter -/

/-- C10, as stated, fails on the losing path: on the initialized `2 × 1` board with a
hidden mine at `(0,0)` the counter invariant holds, and after the left-click on that
mine it does not (the cell is `REVEALED`, the counter is still `0`). -/
theorem losing_click_breaks_counter_invariant :
    (sessionOf (minedBoard Status.HIDDEN Status.HIDDEN)).board.CounterInv ∧
    ¬ (OnLeftClick (specOps allMines) tile00
        (sessionOf (minedBoard Status.HIDDEN Status.HIDDEN))).board.CounterInv := by
  refine ⟨by decide, ?_⟩
  rw [OnLeftClick_mine (specOps allMines) tile00
    (sessionOf (minedBoard Status.HIDDEN Status.HIDDEN)) rfl rfl]
  decide

/-- C10, amended: `OnRightClick` and every non-losing path of `OnLeftClick` preserve the
invariant that the revealed-cell counter equals the number of `REVEALED` cells, provided
the board's own `Initialize` and `RevealFrom` preserve it.  The losing path leaves the
counter as it was while revealing every mined cell, so after it the invariant holds
exactly when every mined cell of the board was already `REVEALED`. -/
theorem controller_preserves_counter_invariant (ops : BoardOps) (t : ClickableTile)
    (s : Session)
    (hInit : ∀ b x y m, Board.CounterInv b → (ops.Initialize b x y m).CounterInv)
    (hReveal : ∀ b x y, Board.CounterInv b → (ops.RevealFrom b x y).1.CounterInv)
    (hinv : s.board.CounterInv) :
    (OnRightClick t s).board.CounterInv ∧
    ((s.board.initialized = false ∨ (s.board.At t.boardX t.boardY).hasMine = false) →
      (OnLeftClick ops t s).board.CounterInv) ∧
    ((s.board.initialized = true ∧ (s.board.At t.boardX t.boardY).hasMine = true) →
      (OnLeftClick ops t s).board.revealedTiles = s.board.revealedTiles ∧
      ((OnLeftClick ops t s).board.CounterInv ↔
        ∀ x y, x < s.board.width → y < s.board.height → (s.board.At x y).hasMine = true →
          (s.board.At x y).status = Status.REVEALED)) := by
  refine ⟨?_, ?_, ?_⟩
  · have hb := congrArg Prod.fst (OnRightClick_eq_step t s)
    simp only at hb
    unfold Board.CounterInv at *
    rw [hb]
    have hc : (flagCycleStep s.board s.flagsUsed t.boardX t.boardY).1.countRevealed =
        s.board.countRevealed := by
      refine countRevealed_congr s.board
        (flagCycleStep s.board s.flagsUsed t.boardX t.boardY).1 rfl rfl ?_
      intro x y _ _
      by_cases hxy : x = t.boardX ∧ y = t.boardY
      · obtain ⟨rfl, rfl⟩ := hxy
        simp only [flagCycleStep, Board.At, and_self, if_true]
        cases hst : (s.board.cells t.boardX t.boardY).status <;> simp [flagCycleNext]
      · simp [flagCycleStep, Board.At, hxy]
    rw [hc]
    exact hinv
  · intro h
    rcases OnLeftClick_cases t s with hi | ⟨hi, hm, hs⟩ | ⟨hi, hm⟩ | ⟨hi, hm, hs⟩
    · rw [OnLeftClick_uninitialized ops t s hi, winCheck_board]
      exact hReveal _ _ _ (hInit _ _ _ _ hinv)
    · rw [OnLeftClick_reveal ops t s hi hm hs, winCheck_board]
      exact hReveal _ _ _ hinv
    · rcases h with h | h
      · rw [h] at hi; cases hi
      · rw [h] at hm; cases hm
    · rw [OnLeftClick_revealed ops t s hi hm hs, winCheck_board]
      exact hinv
  · rintro ⟨hi, hm⟩
    rw [OnLeftClick_mine ops t s hi hm]
    have hf := revealAllMines_fields s.board
    refine ⟨hf.2.2.2.1, ?_⟩
    show (revealAllMines s.board).CounterInv ↔ _
    rw [← countRevealed_revealAllMines]
    unfold Board.CounterInv at *
    rw [hf.2.2.2.1, hinv]
    constructor <;> intro h <;> omega

/-- Witness for C10: the first click on the fresh `2 × 1` board, with the board algorithms
of the specification. -/
theorem controller_preserves_counter_invariant_witness :
    (sessionOf freshBoard).board.CounterInv ∧
    (OnRightClick tile00 (sessionOf freshBoard)).board.CounterInv ∧
    (OnLeftClick (specOps allMines) tile00 (sessionOf freshBoard)).board.CounterInv :=
  have h := controller_preserves_counter_invariant (specOps allMines) tile00
    (sessionOf freshBoard) (fun b x y m hb => Initialize_CounterInv allMines b x y m hb)
    (fun b x y hb => RevealFrom_CounterInv b x y hb) (by decide)
  ⟨by decide, h.1, h.2.1 (Or.inl rfl)⟩

/-! ## The first click -/

/-- C11: on a board that is not initialized, `OnLeftClick` calls `Initialize` exactly once,
at the tile's own board coordinates with the session's mine count, then `RevealFrom`
exactly once at the same coordinates (the board after the call is the one `RevealFrom`
returned for the board `Initialize` returned), plays exactly one sound, `single` when
`RevealFrom` returned `1` and `clear` otherwise, and ends with the flags-used counter at
zero and the timer started; the trace of the call is given in full, in call order. -/
theorem first_click_initializes_and_reveals (ops : BoardOps) (t : ClickableTile) (s : Session)
    (h : s.board.initialized = false) :
    (OnLeftClick ops t s).board =
      (ops.RevealFrom (ops.Initialize s.board t.boardX t.boardY s.mineCount)
        t.boardX t.boardY).1 ∧
    (OnLeftClick ops t s).trace =
      s.trace ++
        [Call.OnLeftClick t.boardX t.boardY,
         Call.BoardInitialize t.boardX t.boardY s.mineCount,
         Call.SpawnClearEffects t.boardX t.boardY ⟨0, 0, 32, 32⟩,
         Call.BoardRevealFrom t.boardX t.boardY,
         Call.PlaySound
           (if (ops.RevealFrom (ops.Initialize s.board t.boardX t.boardY s.mineCount)
              t.boardX t.boardY).2 = 1 then Sound.single else Sound.clear),
         Call.SetFlagsUsed 0,
         Call.StartTimer] ++
        (if (OnLeftClick ops t s).board.won then [Call.PushState true] else []) ∧
    boardInitializeCalls (OnLeftClick ops t s).trace = boardInitializeCalls s.trace + 1 ∧
    boardRevealCalls (OnLeftClick ops t s).trace = boardRevealCalls s.trace + 1 ∧
    soundsPlayed (OnLeftClick ops t s).trace = soundsPlayed s.trace + 1 ∧
    (OnLeftClick ops t s).flagsUsed = 0 ∧
    (OnLeftClick ops t s).timerStarted = true := by
  rw [OnLeftClick_uninitialized ops t s h]
  refine ⟨winCheck_board _, ?_, ?_, ?_, ?_, ?_, ?_⟩
  · rw [winCheck_trace, winCheck_board]
  · rw [winCheck_trace]
    split <;> simp [boardInitializeCalls, List.countP_append, List.countP_cons]
  · rw [winCheck_trace]
    split <;> simp [boardRevealCalls, List.countP_append, List.countP_cons]
  · rw [winCheck_trace]
    split <;> simp [soundsPlayed, List.countP_append, List.countP_cons]
  · rw [winCheck_flagsUsed]
  · unfold winCheck
    simp only []
    split <;> rfl

/-- Witness for C11: the first click on the fresh `2 × 1` board, one flag having been
counted before it. -/
theorem first_click_initializes_and_reveals_witness :
    ({ sessionOf freshBoard with flagsUsed := 1 } : Session).board.initialized = false ∧
    (OnLeftClick (specOps allMines) tile00
      { sessionOf freshBoard with flagsUsed := 1 }).flagsUsed = 0 ∧
    (OnLeftClick (specOps allMines) tile00
      { sessionOf freshBoard with flagsUsed := 1 }).timerStarted = true ∧
    boardInitializeCalls (OnLeftClick (specOps allMines) tile00
      { sessionOf freshBoard with flagsUsed := 1 }).trace = 0 + 1 :=
  have h := first_click_initializes_and_reveals (specOps allMines) tile00
    { sessionOf freshBoard with flagsUsed := 1 } rfl
  ⟨rfl, h.2.2.2.2.2.1, h.2.2.2.2.2.2, h.2.2.1⟩

/-! ## Press and hover feedback -/

/-- On a value in `[0, 256)` the conversion to `Uint8` is the floor. -/
theorem toUint8_of_range (q : ℚ) (h0 : 0 ≤ q) (h1 : q < 256) :
    ((toUint8 q : Nat) : ℚ) ≤ q ∧ q < ((toUint8 q : Nat) : ℚ) + 1 ∧
    (toUint8 q : Int) = Int.floor q := by
  have hf0 : 0 ≤ Int.floor q := Int.floor_nonneg.2 h0
  have hf1 : Int.floor q < 256 := Int.floor_lt.2 (by exact_mod_cast h1)
  have hval : (toUint8 q : Int) = Int.floor q := by
    unfold toUint8
    rw [if_pos h0, Int.emod_eq_of_lt hf0 hf1, Int.toNat_of_nonneg hf0]
  have hcast : ((toUint8 q : Nat) : ℚ) = ((Int.floor q : Int) : ℚ) := by
    rw [← hval]
    norm_cast
  refine ⟨?_, ?_, hval⟩
  · rw [hcast]
    exact Int.floor_le q
  · rw [hcast]
    exact Int.lt_floor_add_one q

/-- A whole number below `256` converts to itself. -/
theorem toUint8_natCast (n : Nat) (h : n < 256) : toUint8 (n : ℚ) = n := by
  have h0 : (0 : ℚ) ≤ (n : ℚ) := Nat.cast_nonneg n
  have h1 : (n : ℚ) < 256 := by exact_mod_cast h
  have hv := (toUint8_of_range (n : ℚ) h0 h1).2.2
  rw [Int.floor_natCast] at hv
  exact_mod_cast hv

/-- C12: a pointer-down of any button inside the rectangle sets the press-capture flag,
sets the current alpha level to `maxAlpha` at once, and sets the fade colour to black
`(0,0,0)` with the alpha `maxAlpha` converted to the 8-bit channel (which is `maxAlpha`
itself whenever that constant is a whole number below `256`); the fade direction, the
tile geometry and the whole session (board included) are unchanged.  A pointer-down
outside the rectangle changes nothing. -/
theorem pointer_down_captures_press (ops : BoardOps) (t : ClickableTile) (s : Session)
    (ev : SDL_Event) (hty : ev.type = EventType.MOUSEBUTTONDOWN) :
    (t.inRect ev.x ev.y →
      (HandleInput ops t s ev).1.clickedInTile = true ∧
      (HandleInput ops t s ev).1.currentAlpha = t.maxAlpha ∧
      (HandleInput ops t s ev).1.fadeColor = ⟨0, 0, 0, toUint8 t.maxAlpha⟩ ∧
      (∀ n : Nat, n < 256 → t.maxAlpha = (n : ℚ) →
        (HandleInput ops t s ev).1.fadeColor = ⟨0, 0, 0, n⟩) ∧
      (HandleInput ops t s ev).1.doFadeInEffect = t.doFadeInEffect ∧
      (HandleInput ops t s ev).1.maxAlpha = t.maxAlpha ∧
      (HandleInput ops t s ev).1.x = t.x ∧ (HandleInput ops t s ev).1.y = t.y ∧
      (HandleInput ops t s ev).1.width = t.width ∧
      (HandleInput ops t s ev).1.height = t.height ∧
      (HandleInput ops t s ev).2 = s) ∧
    (¬ t.inRect ev.x ev.y → HandleInput ops t s ev = (t, s)) := by
  refine ⟨?_, ?_⟩
  · intro hin
    rw [HandleInput_down_inside ops t s ev hty ((contains_iff t ev.x ev.y).2 hin)]
    refine ⟨rfl, rfl, rfl, ?_, rfl, rfl, rfl, rfl, rfl, rfl, rfl⟩
    intro n hn hmax
    show (⟨0, 0, 0, toUint8 t.maxAlpha⟩ : SDL_Color) = ⟨0, 0, 0, n⟩
    rw [hmax, toUint8_natCast n hn]
  · intro hout
    apply HandleInput_down_outside ops t s ev hty
    rw [Bool.eq_false_iff]
    exact fun h => hout ((contains_iff t ev.x ev.y).1 h)

/-- Witness for C12: a left press at `(5,5)` on the tile `(0,0)-(32,32)`, whose `maxAlpha`
is `100`. -/
theorem pointer_down_captures_press_witness :
    (buttonEvent EventType.MOUSEBUTTONDOWN 1 5 5).type = EventType.MOUSEBUTTONDOWN ∧
    tile00.inRect 5 5 ∧
    (HandleInput (specOps allMines) tile00 (sessionOf freshBoard)
      (buttonEvent EventType.MOUSEBUTTONDOWN 1 5 5)).1.clickedInTile = true ∧
    (HandleInput (specOps allMines) tile00 (sessionOf freshBoard)
      (buttonEvent EventType.MOUSEBUTTONDOWN 1 5 5)).1.fadeColor = ⟨0, 0, 0, 100⟩ :=
  have h := (pointer_down_captures_press (specOps allMines) tile00 (sessionOf freshBoard)
    (buttonEvent EventType.MOUSEBUTTONDOWN 1 5 5) rfl).1 (by decide)
  ⟨rfl, by decide, h.1, h.2.2.2.1 100 (by decide) (by
    show tile00.maxAlpha = ((100 : Nat) : ℚ)
    simp [tile00, ClickableTile.new])⟩

/-- The tile and the session after `OnMouseEnter`. -/
theorem OnMouseEnter_eq (t : ClickableTile) (s : Session) :
    OnMouseEnter t s =
      ({ t with doFadeInEffect := true,
                fadeColor := if t.clickedInTile = true then ⟨0, 0, 0, 0⟩ else ⟨255, 255, 255, 0⟩,
                currentAlpha := 50 },
       { s with trace := s.trace ++
          (if (s.board.At t.boardX t.boardY).status = Status.REVEALED then
            [Call.OnMouseEnter t.boardX t.boardY]
           else [Call.OnMouseEnter t.boardX t.boardY, Call.PlaySound Sound.hover]) }) := by
  unfold OnMouseEnter
  cases hc : t.clickedInTile <;>
    by_cases hs : (s.board.At t.boardX t.boardY).status = Status.REVEALED <;>
    simp [Session.emit, hc, hs]

/-- The previous position of a motion event lies outside the rectangle exactly when the
test of `HandleInput` on `oldX`, `oldY` succeeds. -/
theorem old_outside_iff (t : ClickableTile) (ox oy : Int) :
    (ox < t.x ∨ ox ≥ t.x + (t.width : Int) ∨ oy < t.y ∨ oy ≥ t.y + (t.height : Int)) ↔
      ¬ t.inRect ox oy := by
  unfold ClickableTile.inRect
  constructor
  · rintro h ⟨h1, h2, h3, h4⟩
    omega
  · intro h
    by_contra hcon
    apply h
    refine ⟨?_, ?_, ?_, ?_⟩ <;> omega

/-- A motion event that enters the rectangle runs `OnMouseEnter`. -/
theorem HandleInput_motion_enter (ops : BoardOps) (t : ClickableTile) (s : Session)
    (ev : SDL_Event) (hty : ev.type = EventType.MOUSEMOTION) (hin : t.inRect ev.x ev.y)
    (hold : ¬ t.inRect (ev.x - ev.xrel) (ev.y - ev.yrel)) :
    HandleInput ops t s ev = OnMouseEnter t s := by
  unfold HandleInput
  have hc := (contains_iff t ev.x ev.y).2 hin
  have ho := (old_outside_iff t (ev.x - ev.xrel) (ev.y - ev.yrel)).2 hold
  simp only [hty, hc]
  simp [ho]

/-- A motion event that stays inside the rectangle changes nothing. -/
theorem HandleInput_motion_inside (ops : BoardOps) (t : ClickableTile) (s : Session)
    (ev : SDL_Event) (hty : ev.type = EventType.MOUSEMOTION) (hin : t.inRect ev.x ev.y)
    (hold : t.inRect (ev.x - ev.xrel) (ev.y - ev.yrel)) :
    HandleInput ops t s ev = (t, s) := by
  unfold HandleInput
  have hc := (contains_iff t ev.x ev.y).2 hin
  have ho : ¬ (ev.x - ev.xrel < t.x ∨ ev.x - ev.xrel ≥ t.x + (t.width : Int) ∨
      ev.y - ev.yrel < t.y ∨ ev.y - ev.yrel ≥ t.y + (t.height : Int)) :=
    fun h => (old_outside_iff t _ _).1 h hold
  simp only [hty, hc]
  simp [ho]

/-- A motion event whose current position is outside the rectangle switches to fade-out and
loads the alpha of the fade colour into the current alpha level. -/
theorem HandleInput_motion_outside (ops : BoardOps) (t : ClickableTile) (s : Session)
    (ev : SDL_Event) (hty : ev.type = EventType.MOUSEMOTION) (hout : ¬ t.inRect ev.x ev.y) :
    HandleInput ops t s ev =
      ({ t with doFadeInEffect := false, currentAlpha := (t.fadeColor.a : ℚ) }, s) := by
  unfold HandleInput
  have hc : t.contains ev.x ev.y = false := by
    rw [Bool.eq_false_iff]
    exact fun h => hout ((contains_iff t ev.x ev.y).1 h)
  have ho := (old_outside_iff t ev.x ev.y).2 hout
  simp only [hty, hc]
  simp [ho]

/-- Outside the hover-enter branch `HandleInput` does not run `OnMouseEnter`. -/
theorem HandleInput_no_enter (ops : BoardOps) (t : ClickableTile) (s : Session)
    (ev : SDL_Event)
    (h : ¬ (ev.type = EventType.MOUSEMOTION ∧ t.inRect ev.x ev.y ∧
      ¬ t.inRect (ev.x - ev.xrel) (ev.y - ev.yrel))) :
    hoverEnters (HandleInput ops t s ev).2.trace = hoverEnters s.trace := by
  by_cases hty : ev.type = EventType.MOUSEMOTION
  · by_cases hin : t.inRect ev.x ev.y
    · have hold : t.inRect (ev.x - ev.xrel) (ev.y - ev.yrel) := by
        by_contra hcon
        exact h ⟨hty, hin, hcon⟩
      rw [HandleInput_motion_inside ops t s ev hty hin hold]
    · rw [HandleInput_motion_outside ops t s ev hty hin]
  · unfold HandleInput
    by_cases hup : ev.type = EventType.MOUSEBUTTONUP
    · by_cases hclick : t.contains ev.x ev.y = true ∧ t.clickedInTile = true
      · rw [if_pos ⟨hup, hclick⟩]
        simp only []
        split_ifs
        · rcases OnLeftClick_cases
            { t with clickedInTile := false,
                     fadeColor := ⟨255, 255, 255, toUint8 t.currentAlpha⟩ } s
            with hi | ⟨hi, hm, hs⟩ | ⟨hi, hm⟩ | ⟨hi, hm, hs⟩
          · rw [OnLeftClick_uninitialized ops _ s hi, winCheck_trace]
            split <;> simp [hoverEnters, List.countP_append, List.countP_cons]
          · rw [OnLeftClick_reveal ops _ s hi hm hs, winCheck_trace]
            split <;> simp [hoverEnters, List.countP_append, List.countP_cons]
          · rw [OnLeftClick_mine ops _ s hi hm]
            simp [hoverEnters, List.countP_append, List.countP_cons]
          · rw [OnLeftClick_revealed ops _ s hi hm hs, winCheck_trace]
            split <;> simp [hoverEnters, List.countP_append, List.countP_cons]
        · unfold OnRightClick
          simp only []
          split <;> simp [Session.emit, hoverEnters, List.countP_append, List.countP_cons]
        · rfl
      · rw [if_neg (fun hc => hclick hc.2), if_pos hup]
    · rw [if_neg (fun hc => hup hc.1), if_neg hup, if_neg hty]
      split_ifs <;> rfl

/-- C13: `HandleInput` runs `OnMouseEnter` (once) exactly when the event is a pointer motion
whose current position is inside the rectangle and whose previous position (current minus
relative motion) is outside it; in particular a motion that starts and ends inside does
not run it.  When it runs, the fade direction becomes fade-in, the fade colour becomes
white `(255,255,255)` if no press is captured in the tile and black `(0,0,0)` if one is
(with alpha `0`), the current alpha level becomes `50`, the press-capture flag is
unchanged, and the hover cue is played if and only if the cell is not `REVEALED`. -/
theorem hover_enter (ops : BoardOps) (t : ClickableTile) (s : Session) (ev : SDL_Event) :
    (hoverEnters (HandleInput ops t s ev).2.trace = hoverEnters s.trace + 1 ↔
      (ev.type = EventType.MOUSEMOTION ∧ t.inRect ev.x ev.y ∧
        ¬ t.inRect (ev.x - ev.xrel) (ev.y - ev.yrel))) ∧
    (hoverEnters (HandleInput ops t s ev).2.trace = hoverEnters s.trace ↔
      ¬ (ev.type = EventType.MOUSEMOTION ∧ t.inRect ev.x ev.y ∧
        ¬ t.inRect (ev.x - ev.xrel) (ev.y - ev.yrel))) ∧
    ((ev.type = EventType.MOUSEMOTION ∧ t.inRect ev.x ev.y ∧
        ¬ t.inRect (ev.x - ev.xrel) (ev.y - ev.yrel)) →
      (HandleInput ops t s ev).1.doFadeInEffect = true ∧
      (t.clickedInTile = false →
        (HandleInput ops t s ev).1.fadeColor = ⟨255, 255, 255, 0⟩) ∧
      (t.clickedInTile = true → (HandleInput ops t s ev).1.fadeColor = ⟨0, 0, 0, 0⟩) ∧
      (HandleInput ops t s ev).1.currentAlpha = 50 ∧
      (HandleInput ops t s ev).1.clickedInTile = t.clickedInTile ∧
      ((s.board.At t.boardX t.boardY).status ≠ Status.REVEALED →
        (HandleInput ops t s ev).2.trace.count (Call.PlaySound Sound.hover) =
          s.trace.count (Call.PlaySound Sound.hover) + 1) ∧
      ((s.board.At t.boardX t.boardY).status = Status.REVEALED →
        soundsPlayed (HandleInput ops t s ev).2.trace = soundsPlayed s.trace) ∧
      (HandleInput ops t s ev).2.board = s.board ∧
      (HandleInput ops t s ev).2.flagsUsed = s.flagsUsed) := by
  have hfire : (ev.type = EventType.MOUSEMOTION ∧ t.inRect ev.x ev.y ∧
      ¬ t.inRect (ev.x - ev.xrel) (ev.y - ev.yrel)) →
      hoverEnters (HandleInput ops t s ev).2.trace = hoverEnters s.trace + 1 := by
    rintro ⟨hty, hin, hold⟩
    rw [HandleInput_motion_enter ops t s ev hty hin hold, OnMouseEnter_eq]
    simp only []
    split <;> simp [hoverEnters, List.countP_append, List.countP_cons]
  refine ⟨?_, ?_, ?_⟩
  · constructor
    · intro h
      by_contra hcon
      have := HandleInput_no_enter ops t s ev hcon
      omega
    · exact hfire
  · constructor
    · intro h hcon
      have := hfire hcon
      omega
    · exact HandleInput_no_enter ops t s ev
  · rintro ⟨hty, hin, hold⟩
    rw [HandleInput_motion_enter ops t s ev hty hin hold, OnMouseEnter_eq]
    refine ⟨rfl, ?_, ?_, rfl, rfl, ?_, ?_, rfl, rfl⟩
    · intro hc
      simp [hc]
    · intro hc
      simp [hc]
    · intro hs
      simp [hs, List.count_append]
    · intro hs
      simp [hs, soundsPlayed, List.countP_append, List.countP_cons]

/-- The hovered example tile, field by field. -/
theorem hoveredTile_eq :
    hoveredTile = { tile00 with doFadeInEffect := true, currentAlpha := 50 } := by
  unfold hoveredTile
  rw [HandleInput_motion_enter _ _ _ _ rfl (by decide) (by decide), OnMouseEnter_eq]
  rfl

/-- C14, as stated, fails: the tile `(0,0)-(32,32)` that the pointer has just entered has
alpha level `50` and fade colour alpha `0`; the motion from `(5,5)` to `(100,100)`, which
exits the rectangle, leaves it with alpha level `0`, not `50`. -/
theorem exit_motion_changes_alpha_level :
    hoveredTile.inRect (100 - 95) (100 - 95) ∧ ¬ hoveredTile.inRect 100 100 ∧
    hoveredTile.currentAlpha = 50 ∧
    (HandleInput (specOps allMines) hoveredTile (sessionOf freshBoard)
      (motionEvent 100 100 95 95)).1.currentAlpha = 0 ∧
    (HandleInput (specOps allMines) hoveredTile (sessionOf freshBoard)
      (motionEvent 100 100 95 95)).1.currentAlpha ≠ hoveredTile.currentAlpha := by
  have hout : ¬ hoveredTile.inRect (motionEvent 100 100 95 95).x
      (motionEvent 100 100 95 95).y := by
    rw [hoveredTile_eq]; decide
  rw [HandleInput_motion_outside _ _ _ _ rfl hout]
  rw [hoveredTile_eq]
  refine ⟨by decide, by decide, rfl, ?_, ?_⟩
  · simp [tile00, ClickableTile.new]
  · simp [tile00, ClickableTile.new]

/-- C14, amended: a pointer-motion event that exits the rectangle (previous position
inside, current position outside) flips the fade direction to fade-out, leaves the fade
colour, and with it the displayed alpha, as it was, and sets the current alpha level to
the alpha of the fade colour, so that the fade-out starts from the displayed alpha; the
press-capture flag and the session are unchanged.  The alpha level is therefore preserved
exactly when it was equal to the displayed alpha before the event. -/
theorem exit_motion_fades_out_from_displayed_alpha (ops : BoardOps) (t : ClickableTile)
    (s : Session) (ev : SDL_Event) (hty : ev.type = EventType.MOUSEMOTION)
    (hold : t.inRect (ev.x - ev.xrel) (ev.y - ev.yrel)) (hout : ¬ t.inRect ev.x ev.y) :
    (HandleInput ops t s ev).1.doFadeInEffect = false ∧
    (HandleInput ops t s ev).1.fadeColor = t.fadeColor ∧
    (HandleInput ops t s ev).1.currentAlpha = (t.fadeColor.a : ℚ) ∧
    ((HandleInput ops t s ev).1.currentAlpha = t.currentAlpha ↔
      t.currentAlpha = (t.fadeColor.a : ℚ)) ∧
    (HandleInput ops t s ev).1.clickedInTile = t.clickedInTile ∧
    (HandleInput ops t s ev).2 = s := by
  have _ := hold
  rw [HandleInput_motion_outside ops t s ev hty hout]
  exact ⟨rfl, rfl, rfl, ⟨fun h => h.symm, fun h => h.symm⟩, rfl, rfl⟩

/-- Witness for C14: the fresh tile `(0,0)-(32,32)` (alpha level `0`, displayed alpha `0`)
and the motion from `(5,5)` to `(100,100)`. -/
theorem exit_motion_fades_out_from_displayed_alpha_witness :
    tile00.inRect (100 - 95) (100 - 95) ∧ ¬ tile00.inRect 100 100 ∧
    (HandleInput (specOps allMines) tile00 (sessionOf freshBoard)
      (motionEvent 100 100 95 95)).1.doFadeInEffect = false ∧
    (HandleInput (specOps allMines) tile00 (sessionOf freshBoard)
      (motionEvent 100 100 95 95)).1.currentAlpha = ((tile00.fadeColor.a : Nat) : ℚ) :=
  have h := exit_motion_fades_out_from_displayed_alpha (specOps allMines) tile00
    (sessionOf freshBoard) (motionEvent 100 100 95 95) rfl (by decide) (by decide)
  ⟨by decide, by decide, h.1, h.2.2.1⟩

/-! ## The frame tick -/

/-- C15, as stated, fails: on the tile that the pointer has just entered (fading in, alpha
level `50`, `fadeSpeed` `200`, `maxAlpha` `100`) one tick gives
`min(50 + 200*1/1000, 100) = 251/5`, while the displayed fade alpha, an 8-bit channel,
is `50`. -/
theorem update_displayed_alpha_is_truncated :
    hoveredTile.doFadeInEffect = true ∧
    min (hoveredTile.currentAlpha + hoveredTile.fadeSpeed * ((1 : Nat) : ℚ) * (1 / 1000))
      hoveredTile.maxAlpha = 251 / 5 ∧
    (Update hoveredTile 1).fadeColor.a = 50 ∧
    (((Update hoveredTile 1).fadeColor.a : Nat) : ℚ) ≠
      min (hoveredTile.currentAlpha + hoveredTile.fadeSpeed * ((1 : Nat) : ℚ) * (1 / 1000))
        hoveredTile.maxAlpha := by
  have hmin : min (hoveredTile.currentAlpha +
      hoveredTile.fadeSpeed * ((1 : Nat) : ℚ) * (1 / 1000)) hoveredTile.maxAlpha = 251 / 5 := by
    rw [hoveredTile_eq]
    simp only [tile00, ClickableTile.new]
    norm_num
  have hval : (Update hoveredTile 1).fadeColor.a = 50 := by
    have hu : (Update hoveredTile 1).fadeColor.a =
        toUint8 (min (hoveredTile.currentAlpha +
          hoveredTile.fadeSpeed * ((1 : Nat) : ℚ) * (1 / 1000)) hoveredTile.maxAlpha) := by
      rw [hoveredTile_eq]
      rfl
    rw [hu, hmin]
    have hv := (toUint8_of_range (251 / 5) (by norm_num) (by norm_num)).2.2
    have hfl : Int.floor ((251 : ℚ) / 5) = 50 := by
      rw [Int.floor_eq_iff]
      constructor <;> norm_num
    rw [hfl] at hv
    exact_mod_cast hv
  refine ⟨?_, hmin, hval, ?_⟩
  · rw [hoveredTile_eq]
  · rw [hval, hmin]
    norm_num

/-- C15, amended: `Update(t)` moves the alpha level linearly, to `a + fadeSpeed*t/1000`
when fading in and to `a - fadeSpeed*t/1000` when fading out (exact rationals, not
clamped), and sets the displayed fade alpha, an 8-bit colour channel, to
`min(a + fadeSpeed*t/1000, maxAlpha)`, respectively `max(a - fadeSpeed*t/1000, 0)`,
converted to that channel.  Whenever this clamped value lies in `[0, 256)` the displayed
alpha is its whole part: at most the clamped value and less than one below it, hence
never above `maxAlpha` when fading in.  `Update` changes neither the press-capture flag,
nor the fade direction, nor the colour of the fade, nor the tile geometry; it has no
access to the board. -/
theorem update_moves_alpha_linearly (t : ClickableTile) (ticks : Nat) :
    (t.doFadeInEffect = true →
      (Update t ticks).currentAlpha = t.currentAlpha + t.fadeSpeed * (ticks : ℚ) * (1 / 1000) ∧
      (Update t ticks).fadeColor.a =
        toUint8 (min (t.currentAlpha + t.fadeSpeed * (ticks : ℚ) * (1 / 1000)) t.maxAlpha) ∧
      (0 ≤ min (t.currentAlpha + t.fadeSpeed * (ticks : ℚ) * (1 / 1000)) t.maxAlpha →
        min (t.currentAlpha + t.fadeSpeed * (ticks : ℚ) * (1 / 1000)) t.maxAlpha < 256 →
        (((Update t ticks).fadeColor.a : Nat) : ℚ) ≤
          min (t.currentAlpha + t.fadeSpeed * (ticks : ℚ) * (1 / 1000)) t.maxAlpha ∧
        min (t.currentAlpha + t.fadeSpeed * (ticks : ℚ) * (1 / 1000)) t.maxAlpha <
          (((Update t ticks).fadeColor.a : Nat) : ℚ) + 1 ∧
        (((Update t ticks).fadeColor.a : Nat) : ℚ) ≤ t.maxAlpha)) ∧
    (t.doFadeInEffect = false →
      (Update t ticks).currentAlpha = t.currentAlpha - t.fadeSpeed * (ticks : ℚ) * (1 / 1000) ∧
      (Update t ticks).fadeColor.a =
        toUint8 (max (t.currentAlpha - t.fadeSpeed * (ticks : ℚ) * (1 / 1000)) 0) ∧
      (max (t.currentAlpha - t.fadeSpeed * (ticks : ℚ) * (1 / 1000)) 0 < 256 →
        (((Update t ticks).fadeColor.a : Nat) : ℚ) ≤
          max (t.currentAlpha - t.fadeSpeed * (ticks : ℚ) * (1 / 1000)) 0 ∧
        max (t.currentAlpha - t.fadeSpeed * (ticks : ℚ) * (1 / 1000)) 0 <
          (((Update t ticks).fadeColor.a : Nat) : ℚ) + 1)) ∧
    (Update t ticks).clickedInTile = t.clickedInTile ∧
    (Update t ticks).doFadeInEffect = t.doFadeInEffect ∧
    (Update t ticks).fadeColor.r = t.fadeColor.r ∧
    (Update t ticks).fadeColor.g = t.fadeColor.g ∧
    (Update t ticks).fadeColor.b = t.fadeColor.b ∧
    (Update t ticks).x = t.x ∧ (Update t ticks).y = t.y ∧
    (Update t ticks).width = t.width ∧ (Update t ticks).height = t.height ∧
    (Update t ticks).boardX = t.boardX ∧ (Update t ticks).boardY = t.boardY ∧
    (Update t ticks).maxAlpha = t.maxAlpha ∧ (Update t ticks).fadeSpeed = t.fadeSpeed := by
  refine ⟨?_, ?_, ?_⟩
  · intro hin
    have hu : Update t ticks =
        { t with
          currentAlpha := t.currentAlpha + t.fadeSpeed * (ticks : ℚ) * (1 / 1000)
          fadeColor := { t.fadeColor with
            a := toUint8 (min (t.currentAlpha + t.fadeSpeed * (ticks : ℚ) * (1 / 1000))
              t.maxAlpha) } } := by
      unfold Update
      rw [if_pos hin]
    rw [hu]
    refine ⟨rfl, rfl, ?_⟩
    intro h0 h1
    obtain ⟨hle, hlt, _⟩ := toUint8_of_range _ h0 h1
    exact ⟨hle, hlt, le_trans hle (min_le_right _ _)⟩
  · intro hout
    have hu : Update t ticks =
        { t with
          currentAlpha := t.currentAlpha - t.fadeSpeed * (ticks : ℚ) * (1 / 1000)
          fadeColor := { t.fadeColor with
            a := toUint8 (max (t.currentAlpha - t.fadeSpeed * (ticks : ℚ) * (1 / 1000)) 0) } } := by
      unfold Update
      rw [hout]
      rfl
    rw [hu]
    refine ⟨rfl, rfl, ?_⟩
    intro h1
    obtain ⟨hle, hlt, _⟩ := toUint8_of_range _ (le_max_right _ _) h1
    exact ⟨hle, hlt⟩
  · unfold Update
    split <;> exact ⟨rfl, rfl, rfl, rfl, rfl, rfl, rfl, rfl, rfl, rfl, rfl, rfl, rfl⟩

/-! ## Bounds on the fade value -/

/-- An event that is neither a button event nor a motion event changes nothing. -/
theorem HandleInput_other (ops : BoardOps) (t : ClickableTile) (s : Session) (ev : SDL_Event)
    (hty : ev.type = EventType.OTHER) : HandleInput ops t s ev = (t, s) := by
  unfold HandleInput
  simp [hty]

/-- A frame tick keeps the fade bounds. -/
theorem Update_FadeInv (M F : ℚ) (hM0 : 0 ≤ M) (hM1 : M < 256) (hF : 0 ≤ F)
    (t : ClickableTile) (n : Nat) (h : FadeInv M F t) : FadeInv M F (Update t n) := by
  obtain ⟨hm, hf, _, hin, hout⟩ := h
  have hd : 0 ≤ t.fadeSpeed * (n : ℚ) * (1 / 1000) := by
    rw [hf]
    positivity
  cases hdir : t.doFadeInEffect
  · have ha := hout hdir
    have hu : Update t n =
        { t with
          currentAlpha := t.currentAlpha - t.fadeSpeed * (n : ℚ) * (1 / 1000)
          fadeColor := { t.fadeColor with
            a := toUint8 (max (t.currentAlpha - t.fadeSpeed * (n : ℚ) * (1 / 1000)) 0) } } := by
      unfold Update
      rw [hdir]
      rfl
    rw [hu]
    have hle : max (t.currentAlpha - t.fadeSpeed * (n : ℚ) * (1 / 1000)) 0 ≤ M :=
      max_le (by linarith) hM0
    obtain ⟨h1, _, _⟩ := toUint8_of_range _ (le_max_right _ _) (lt_of_le_of_lt hle hM1)
    refine ⟨hm, hf, le_trans h1 hle, ?_, ?_⟩
    · intro hc
      rw [hdir] at hc
      cases hc
    · intro _
      show t.currentAlpha - t.fadeSpeed * (n : ℚ) * (1 / 1000) ≤ M
      linarith
  · have ha := hin hdir
    have hu : Update t n =
        { t with
          currentAlpha := t.currentAlpha + t.fadeSpeed * (n : ℚ) * (1 / 1000)
          fadeColor := { t.fadeColor with
            a := toUint8 (min (t.currentAlpha + t.fadeSpeed * (n : ℚ) * (1 / 1000))
              t.maxAlpha) } } := by
      unfold Update
      rw [if_pos hdir]
    rw [hu]
    have h0 : 0 ≤ min (t.currentAlpha + t.fadeSpeed * (n : ℚ) * (1 / 1000)) t.maxAlpha :=
      le_min (by linarith) (by rw [hm]; exact hM0)
    have hle : min (t.currentAlpha + t.fadeSpeed * (n : ℚ) * (1 / 1000)) t.maxAlpha ≤ M := by
      rw [← hm]
      exact min_le_right _ _
    obtain ⟨h1, _, _⟩ := toUint8_of_range _ h0 (lt_of_le_of_lt hle hM1)
    refine ⟨hm, hf, le_trans h1 hle, ?_, ?_⟩
    · intro _
      show 0 ≤ t.currentAlpha + t.fadeSpeed * (n : ℚ) * (1 / 1000)
      linarith
    · intro hc
      rw [hdir] at hc
      cases hc

/-- A pointer event that does not complete a click keeps the fade bounds. -/
theorem HandleInput_FadeInv (ops : BoardOps) (M F : ℚ) (hM0 : 0 ≤ M) (hM1 : M < 256)
    (t : ClickableTile) (s : Session) (ev : SDL_Event) (h : FadeInv M F t)
    (hfree : completesClick t (TileInput.event ev) = false) :
    FadeInv M F (HandleInput ops t s ev).1 := by
  obtain ⟨hm, hf, hfc, hin, hout⟩ := h
  cases hty : ev.type
  · -- pointer-down
    by_cases hc : t.contains ev.x ev.y = true
    · rw [HandleInput_down_inside ops t s ev hty hc]
      obtain ⟨h1, _, _⟩ := toUint8_of_range t.maxAlpha (by rw [hm]; exact hM0)
        (by rw [hm]; exact hM1)
      refine ⟨hm, hf, ?_, ?_, ?_⟩
      · show ((toUint8 t.maxAlpha : Nat) : ℚ) ≤ M
        rw [← hm]
        exact h1
      · intro _
        show 0 ≤ t.maxAlpha
        rw [hm]
        exact hM0
      · intro _
        show t.maxAlpha ≤ M
        rw [hm]
    · rw [HandleInput_down_outside ops t s ev hty (by simpa using hc)]
      exact ⟨hm, hf, hfc, hin, hout⟩
  · -- pointer-up that completes no click
    have hcancel : t.contains ev.x ev.y = false ∨ t.clickedInTile = false := by
      simp only [completesClick, hty, decide_True, Bool.true_and, Bool.and_eq_false_iff] at hfree
      exact hfree
    rw [HandleInput_up_cancel ops t s ev hty hcancel]
    exact ⟨hm, hf, hfc, hin, hout⟩
  · -- pointer-motion
    by_cases hcur : t.inRect ev.x ev.y
    · by_cases hold : t.inRect (ev.x - ev.xrel) (ev.y - ev.yrel)
      · rw [HandleInput_motion_inside ops t s ev hty hcur hold]
        exact ⟨hm, hf, hfc, hin, hout⟩
      · rw [HandleInput_motion_enter ops t s ev hty hcur hold, OnMouseEnter_eq]
        refine ⟨hm, hf, ?_, ?_, ?_⟩
        · show (((if t.clickedInTile = true then (⟨0, 0, 0, 0⟩ : SDL_Color)
            else ⟨255, 255, 255, 0⟩).a : Nat) : ℚ) ≤ M
          split <;> simpa using hM0
        · intro _
          show (0 : ℚ) ≤ 50
          norm_num
        · intro hc
          cases hc
    · rw [HandleInput_motion_outside ops t s ev hty hcur]
      refine ⟨hm, hf, hfc, ?_, ?_⟩
      · intro hc
        cases hc
      · intro _
        exact hfc
  · rw [HandleInput_other ops t s ev hty]
    exact ⟨hm, hf, hfc, hin, hout⟩

/-- A freshly constructed tile satisfies the fade bounds. -/
theorem new_FadeInv (x y : Int) (w h bx by_ : Nat) (M F : ℚ) (hM0 : 0 ≤ M) :
    FadeInv M F (ClickableTile.new x y w h bx by_ M F) := by
  refine ⟨rfl, rfl, ?_, ?_, ?_⟩
  · show (((0 : Nat) : ℚ)) ≤ M
    simpa using hM0
  · intro hc
    cases hc
  · intro _
    exact hM0

/-- The fade bounds hold along every run that completes no click. -/
theorem runTile_FadeInv (ops : BoardOps) (M F : ℚ) (hM0 : 0 ≤ M) (hM1 : M < 256) (hF : 0 ≤ F)
    (l : List TileInput) (p : ClickableTile × Session) (h : FadeInv M F p.1)
    (hfree : clickFree ops p l = true) : FadeInv M F (runTile ops p l).1 := by
  induction l generalizing p with
  | nil => exact h
  | cons i l ih =>
    simp only [clickFree, Bool.and_eq_true, Bool.not_eq_true'] at hfree
    show FadeInv M F (runTile ops (stepTile ops p i) l).1
    apply ih _ _ hfree.2
    cases i with
    | event ev => exact HandleInput_FadeInv ops M F hM0 hM1 p.1 p.2 ev h hfree.1
    | tick n => exact Update_FadeInv M F hM0 hM1 hF p.1 n h

/-- The tile after a completed click, whatever the button. -/
theorem HandleInput_up_click_tile (ops : BoardOps) (t : ClickableTile) (s : Session)
    (ev : SDL_Event) (hty : ev.type = EventType.MOUSEBUTTONUP)
    (hin : t.contains ev.x ev.y = true) (hcap : t.clickedInTile = true) :
    (HandleInput ops t s ev).1 =
      { t with clickedInTile := false,
               fadeColor := ⟨255, 255, 255, toUint8 t.currentAlpha⟩ } := by
  rw [HandleInput_up_click ops t s ev hty hin hcap]
  split_ifs <;> rfl

/-- C16, as stated, fails in both parts.  One frame of 1000 ticks on the fresh tile
(`fadeSpeed` `200`) takes the alpha level to `-200`, below `0`.  And after hover, press,
a frame of 100 ticks and release, the alpha written into the fade colour by the completed
click is `120`, above `maxAlpha = 100`. -/
theorem fade_value_leaves_interval :
    (runTile (specOps allMines) (tile00, sessionOf freshBoard)
      [TileInput.tick 1000]).1.currentAlpha = -200 ∧
    ¬ (0 ≤ (runTile (specOps allMines) (tile00, sessionOf freshBoard)
      [TileInput.tick 1000]).1.currentAlpha) ∧
    (runTile (specOps allMines) (tile00, sessionOf freshBoard) heldClick).1.fadeColor.a = 120 ∧
    ¬ ((((runTile (specOps allMines) (tile00, sessionOf freshBoard) heldClick).1.fadeColor.a :
        Nat) : ℚ) ≤ tile00.maxAlpha) := by
  have h1 : (runTile (specOps allMines) (tile00, sessionOf freshBoard)
      [TileInput.tick 1000]).1.currentAlpha = -200 := by
    simp only [runTile, List.foldl, stepTile, Update, tile00, ClickableTile.new]
    norm_num
  have henter : ∀ s : Session,
      (HandleInput (specOps allMines) tile00 s (motionEvent 5 5 10 0)).1 =
        { tile00 with doFadeInEffect := true, currentAlpha := 50 } := by
    intro s
    rw [HandleInput_motion_enter _ _ _ _ rfl (by decide) (by decide), OnMouseEnter_eq]
    rfl
  have hpress : ∀ s : Session,
      (HandleInput (specOps allMines) { tile00 with doFadeInEffect := true, currentAlpha := 50 }
        s (buttonEvent EventType.MOUSEBUTTONDOWN 1 5 5)).1 = pressedTile := by
    intro s
    rw [HandleInput_down_inside _ _ _ _ rfl (by decide)]
    rfl
  have htick : (Update pressedTile 100).currentAlpha = 120 := by
    simp only [Update, pressedTile, tile00, ClickableTile.new]
    norm_num
  have hflag : (Update pressedTile 100).clickedInTile = true := rfl
  have hgeo : ClickableTile.contains (Update pressedTile 100)
      (buttonEvent EventType.MOUSEBUTTONUP 1 5 5).x
      (buttonEvent EventType.MOUSEBUTTONUP 1 5 5).y = true := by decide
  have h2 : (runTile (specOps allMines) (tile00, sessionOf freshBoard)
      heldClick).1.fadeColor.a = 120 := by
    simp only [runTile, heldClick, List.foldl, stepTile]
    rw [henter, hpress, HandleInput_up_click_tile _ _ _ _ rfl hgeo hflag]
    show toUint8 (Update _ 100).currentAlpha = 120
    rw [htick]
    exact toUint8_natCast 120 (by decide)
  refine ⟨h1, ?_, h2, ?_⟩
  · rw [h1]
    norm_num
  · rw [h2]
    simp only [tile00, ClickableTile.new]
    norm_num

/-- C16, amended: for a tile constructed with constants `0 ≤ maxAlpha < 256` and
`0 ≤ fadeSpeed`, in every state reached from the freshly constructed tile by pointer
events and frame ticks none of which completes a click, the alpha of the fade colour (the
displayed fade value) lies in `[0, maxAlpha]`; the alpha level itself is bounded on one
side only: it is not negative while fading in and not above `maxAlpha` while fading
out. -/
theorem displayed_alpha_bounded_without_click (ops : BoardOps) (x y : Int)
    (w h bx by_ : Nat) (M F : ℚ) (s : Session) (l : List TileInput)
    (hM0 : 0 ≤ M) (hM1 : M < 256) (hF : 0 ≤ F)
    (hfree : clickFree ops (ClickableTile.new x y w h bx by_ M F, s) l = true) :
    (0 : ℚ) ≤ (((runTile ops (ClickableTile.new x y w h bx by_ M F, s) l).1.fadeColor.a :
      Nat) : ℚ) ∧
    (((runTile ops (ClickableTile.new x y w h bx by_ M F, s) l).1.fadeColor.a : Nat) : ℚ) ≤ M ∧
    ((runTile ops (ClickableTile.new x y w h bx by_ M F, s) l).1.doFadeInEffect = true →
      0 ≤ (runTile ops (ClickableTile.new x y w h bx by_ M F, s) l).1.currentAlpha) ∧
    ((runTile ops (ClickableTile.new x y w h bx by_ M F, s) l).1.doFadeInEffect = false →
      (runTile ops (ClickableTile.new x y w h bx by_ M F, s) l).1.currentAlpha ≤ M) ∧
    (runTile ops (ClickableTile.new x y w h bx by_ M F, s) l).1.maxAlpha = M := by
  obtain ⟨hm, _, hfc, hin, hout⟩ := runTile_FadeInv ops M F hM0 hM1 hF l
    (ClickableTile.new x y w h bx by_ M F, s) (new_FadeInv x y w h bx by_ M F hM0) hfree
  exact ⟨Nat.cast_nonneg _, hfc, hin, hout, hm⟩

/-- Witness for C16: hover, a frame, press, drag out, release outside, a long frame, on the
tile `(0,0)-(32,32)` with `maxAlpha = 100` and `fadeSpeed = 200`. -/
theorem displayed_alpha_bounded_without_click_witness :
    clickFree (specOps allMines) (ClickableTile.new 0 0 32 32 0 0 100 200, sessionOf freshBoard)
      hoverAndLeave = true ∧
    (((runTile (specOps allMines) (ClickableTile.new 0 0 32 32 0 0 100 200, sessionOf freshBoard)
      hoverAndLeave).1.fadeColor.a : Nat) : ℚ) ≤ 100 :=
  ⟨by decide,
    (displayed_alpha_bounded_without_click (specOps allMines) 0 0 32 32 0 0 100 200
      (sessionOf freshBoard) hoverAndLeave (by norm_num) (by norm_num) (by norm_num)
      (by decide)).2.1⟩

/-! ## Rendering -/

theorem toDigitsCore_length_le (b fuel n : Nat) (ds : List Char) :
    ds.length ≤ (Nat.toDigitsCore b fuel n ds).length := by
  induction fuel generalizing n ds with
  | zero => simp [Nat.toDigitsCore]
  | succ fuel ih =>
    unfold Nat.toDigitsCore
    simp only []
    split
    · simp
    · exact le_trans (by simp) (ih _ _)

/-- The decimal text of a positive count is not empty. -/
theorem toString_pos_length (n : Int) (h : 0 < n) : 0 < (toString n).length := by
  obtain ⟨m, rfl⟩ := Int.eq_ofNat_of_zero_le (le_of_lt h)
  show 0 < (Nat.repr m).length
  unfold Nat.repr Nat.toDigits Nat.toDigitsCore
  simp only [List.asString, String.length]
  split
  · simp
  · exact lt_of_lt_of_le (by simp) (toDigitsCore_length_le _ _ _ _)

/-- The sprite region of `Draw` is the one of the reference table. -/
theorem spriteRegion_eq (c : Tile) : spriteRegion c = referenceRegion c.status c.hasMine := by
  unfold spriteRegion referenceRegion
  cases c.status <;> cases c.hasMine <;> rfl

/-- The calls of `Draw` are those of the reference rendering. -/
theorem Draw_eq_reference (sw : ScreenWriter) (t : ClickableTile) (s : Session) :
    Draw sw t s = drawReference sw t s := by
  unfold Draw drawReference referenceLabel
  simp only [spriteRegion_eq]
  by_cases hs : (s.board.At t.boardX t.boardY).status = Status.REVEALED
  · by_cases hlab : (s.board.At t.boardX t.boardY).adjacentMines > 0 ∧
        (s.board.At t.boardX t.boardY).hasMine = false
    · have hlen := toString_pos_length _ hlab.1
      have hpos : 0 < (s.board.At t.boardX t.boardY).adjacentMines := hlab.1
      simp only [hs, hlab.1, hlab.2, hpos, hlen, ne_eq, not_true_eq_false, if_false, if_true,
        and_self, List.append_nil, gt_iff_lt]
      cases sw.currentFont with
      | none => rfl
      | some cur =>
        simp only []
        cases sw.getFont cur.name (s.tileHeight * 3 / 4) with
        | none => rfl
        | some f => rfl
    · have hlab' : ¬ ((s.board.At t.boardX t.boardY).hasMine = false ∧
          0 < (s.board.At t.boardX t.boardY).adjacentMines) := fun h => hlab ⟨h.2, h.1⟩
      simp [hs, hlab, hlab']
  · simp [hs]

/-- The label of the reference rendering is written exactly under its four conditions. -/
theorem referenceLabel_count (sw : ScreenWriter) (t : ClickableTile) (s : Session) :
    (labelsWritten (referenceLabel sw t s) = 1 ↔
      ((s.board.At t.boardX t.boardY).status = Status.REVEALED ∧
        (s.board.At t.boardX t.boardY).hasMine = false ∧
        0 < (s.board.At t.boardX t.boardY).adjacentMines ∧ fontsAvailable sw s)) ∧
    (labelsWritten (referenceLabel sw t s) = 0 ↔
      ¬ ((s.board.At t.boardX t.boardY).status = Status.REVEALED ∧
        (s.board.At t.boardX t.boardY).hasMine = false ∧
        0 < (s.board.At t.boardX t.boardY).adjacentMines ∧ fontsAvailable sw s)) ∧
    overlaysDrawn (referenceLabel sw t s) = 0 := by
  unfold referenceLabel
  simp only []
  by_cases hc : (s.board.At t.boardX t.boardY).status = Status.REVEALED ∧
      (s.board.At t.boardX t.boardY).hasMine = false ∧
      0 < (s.board.At t.boardX t.boardY).adjacentMines
  · rw [if_pos hc]
    cases hcur : sw.currentFont with
    | none =>
      have hn : ¬ ((s.board.At t.boardX t.boardY).status = Status.REVEALED ∧
          (s.board.At t.boardX t.boardY).hasMine = false ∧
          0 < (s.board.At t.boardX t.boardY).adjacentMines ∧ fontsAvailable sw s) := by
        rintro ⟨_, _, _, cur', f', h1, _⟩
        rw [hcur] at h1
        cases h1
      exact ⟨iff_of_false (fun h => by cases h) hn, iff_of_true rfl hn, rfl⟩
    | some cur =>
      simp only []
      cases hf : sw.getFont cur.name (s.tileHeight * 3 / 4) with
      | none =>
        have hn : ¬ ((s.board.At t.boardX t.boardY).status = Status.REVEALED ∧
            (s.board.At t.boardX t.boardY).hasMine = false ∧
            0 < (s.board.At t.boardX t.boardY).adjacentMines ∧ fontsAvailable sw s) := by
          rintro ⟨_, _, _, cur', f', h1, h2⟩
          rw [hcur] at h1
          cases h1
          rw [hf] at h2
          cases h2
        exact ⟨iff_of_false (fun h => by cases h) hn, iff_of_true rfl hn, rfl⟩
      | some f =>
        have hy : (s.board.At t.boardX t.boardY).status = Status.REVEALED ∧
            (s.board.At t.boardX t.boardY).hasMine = false ∧
            0 < (s.board.At t.boardX t.boardY).adjacentMines ∧ fontsAvailable sw s :=
          ⟨hc.1, hc.2.1, hc.2.2, cur, f, hcur, hf⟩
        exact ⟨iff_of_true rfl hy, iff_of_false (fun h => by cases h) (not_not.2 hy), rfl⟩
  · rw [if_neg hc]
    have hn : ¬ ((s.board.At t.boardX t.boardY).status = Status.REVEALED ∧
        (s.board.At t.boardX t.boardY).hasMine = false ∧
        0 < (s.board.At t.boardX t.boardY).adjacentMines ∧ fontsAvailable sw s) :=
      fun h => hc ⟨h.1, h.2.1, h.2.2.1⟩
    exact ⟨iff_of_false (fun h => by cases h) hn, iff_of_true rfl hn, rfl⟩

/-- C17: `Draw` is the reference rendering.  Its first call draws the tile texture into the
tile rectangle from the source region `(0,0,32,32)` for `HIDDEN`, `(64,0,32,32)` for
`MARKED`, `(96,0,32,32)` for `QMARK`, `(32,0,32,32)` for `REVEALED` without a mine and
`(128,0,32,32)` for `REVEALED` with a mine; it draws the fade colour over the tile, once,
if and only if the cell is not `REVEALED`; and it writes the adjacent-mine count, once,
if and only if the cell is `REVEALED`, has no mine, has a positive count, and a current
font and the sized font are available; otherwise no label is written and the other calls
are issued all the same. -/
theorem draw_is_reference_rendering (sw : ScreenWriter) (t : ClickableTile) (s : Session) :
    Draw sw t s = drawReference sw t s ∧
    (∃ rest, Draw sw t s =
      DrawCall.Draw (referenceRegion (s.board.At t.boardX t.boardY).status
        (s.board.At t.boardX t.boardY).hasMine) ⟨t.x, t.y, t.width, t.height⟩ :: rest) ∧
    referenceRegion Status.HIDDEN (s.board.At t.boardX t.boardY).hasMine = ⟨0, 0, 32, 32⟩ ∧
    referenceRegion Status.MARKED (s.board.At t.boardX t.boardY).hasMine = ⟨64, 0, 32, 32⟩ ∧
    referenceRegion Status.QMARK (s.board.At t.boardX t.boardY).hasMine = ⟨96, 0, 32, 32⟩ ∧
    referenceRegion Status.REVEALED false = ⟨32, 0, 32, 32⟩ ∧
    referenceRegion Status.REVEALED true = ⟨128, 0, 32, 32⟩ ∧
    (overlaysDrawn (Draw sw t s) = 1 ↔
      (s.board.At t.boardX t.boardY).status ≠ Status.REVEALED) ∧
    (overlaysDrawn (Draw sw t s) = 0 ↔
      (s.board.At t.boardX t.boardY).status = Status.REVEALED) ∧
    ((s.board.At t.boardX t.boardY).status ≠ Status.REVEALED →
      DrawCall.DrawFilledRect ⟨t.x, t.y, t.width, t.height⟩ t.fadeColor ∈ Draw sw t s) ∧
    (labelsWritten (Draw sw t s) = 1 ↔
      ((s.board.At t.boardX t.boardY).status = Status.REVEALED ∧
        (s.board.At t.boardX t.boardY).hasMine = false ∧
        0 < (s.board.At t.boardX t.boardY).adjacentMines ∧ fontsAvailable sw s)) ∧
    (labelsWritten (Draw sw t s) = 0 ↔
      ¬ ((s.board.At t.boardX t.boardY).status = Status.REVEALED ∧
        (s.board.At t.boardX t.boardY).hasMine = false ∧
        0 < (s.board.At t.boardX t.boardY).adjacentMines ∧ fontsAvailable sw s)) := by
  obtain ⟨hl1, hl0, hlo⟩ := referenceLabel_count sw t s
  have hov : overlaysDrawn (drawReference sw t s) =
      if (s.board.At t.boardX t.boardY).status = Status.REVEALED then 0 else 1 := by
    unfold drawReference
    simp only [overlaysDrawn, List.countP_append] at hlo ⊢
    rw [hlo]
    split <;> simp [List.countP_cons]
  have hlab : labelsWritten (drawReference sw t s) = labelsWritten (referenceLabel sw t s) := by
    unfold drawReference
    simp only [labelsWritten, List.countP_append]
    split <;> simp [List.countP_cons]
  rw [Draw_eq_reference]
  refine ⟨rfl, ⟨_, rfl⟩, ?_, rfl, rfl, rfl, rfl, ?_, ?_, ?_, ?_, ?_⟩
  · cases (s.board.At t.boardX t.boardY).hasMine <;> rfl
  · rw [hov]
    split <;> simp [*]
  · rw [hov]
    split <;> simp [*]
  · intro hs
    unfold drawReference
    simp [hs]
  · rw [hlab]
    exact hl1
  · rw [hlab]
    exact hl0

/-- C18: `Draw` leaks no mine information for a cell that is not revealed: for two sessions
whose boards agree on the status of the tile's cell, that status not being `REVEALED`,
and for the same tile state, `Draw` issues exactly the same calls, namely the sprite of
the status into the tile rectangle followed by the fade overlay, and no label, whatever
the `hasMine` and `adjacentMines` values of the cell (and the rest of the two sessions,
and the fonts) are. -/
theorem draw_leaks_no_mine_information (sw1 sw2 : ScreenWriter) (t : ClickableTile)
    (s1 s2 : Session)
    (hsame : (s1.board.At t.boardX t.boardY).status = (s2.board.At t.boardX t.boardY).status)
    (hhid : (s1.board.At t.boardX t.boardY).status ≠ Status.REVEALED) :
    Draw sw1 t s1 = Draw sw2 t s2 ∧
    Draw sw1 t s1 =
      [DrawCall.Draw (referenceRegion (s1.board.At t.boardX t.boardY).status false)
         ⟨t.x, t.y, t.width, t.height⟩,
       DrawCall.DrawFilledRect ⟨t.x, t.y, t.width, t.height⟩ t.fadeColor] ∧
    labelsWritten (Draw sw1 t s1) = 0 := by
  have hform : ∀ (sw : ScreenWriter) (s : Session),
      (s.board.At t.boardX t.boardY).status ≠ Status.REVEALED →
      Draw sw t s =
        [DrawCall.Draw (referenceRegion (s.board.At t.boardX t.boardY).status false)
           ⟨t.x, t.y, t.width, t.height⟩,
         DrawCall.DrawFilledRect ⟨t.x, t.y, t.width, t.height⟩ t.fadeColor] := by
    intro sw s hs
    rw [Draw_eq_reference]
    unfold drawReference referenceLabel
    have hreg : referenceRegion (s.board.At t.boardX t.boardY).status
        (s.board.At t.boardX t.boardY).hasMine =
        referenceRegion (s.board.At t.boardX t.boardY).status false := by
      cases hst : (s.board.At t.boardX t.boardY).status <;>
        cases (s.board.At t.boardX t.boardY).hasMine <;> first | rfl | exact absurd hst hs
    simp [hs, hreg]
  have h2 : (s2.board.At t.boardX t.boardY).status ≠ Status.REVEALED := by
    rw [← hsame]
    exact hhid
  refine ⟨?_, hform sw1 s1 hhid, ?_⟩
  · rw [hform sw1 s1 hhid, hform sw2 s2 h2, hsame]
  · rw [hform sw1 s1 hhid]
    rfl

/-- Witness for C18: the hidden cell `(0,0)` of the board where it has a mine and of the
fresh board where it has none. -/
theorem draw_leaks_no_mine_information_witness :
    ((sessionOf (minedBoard Status.HIDDEN Status.HIDDEN)).board.At
      tile00.boardX tile00.boardY).hasMine = true ∧
    ((sessionOf freshBoard).board.At tile00.boardX tile00.boardY).hasMine = false ∧
    Draw noFonts tile00 (sessionOf (minedBoard Status.HIDDEN Status.HIDDEN)) =
      Draw noFonts tile00 (sessionOf freshBoard) :=
  ⟨rfl, rfl,
    (draw_leaks_no_mine_information noFonts noFonts tile00
      (sessionOf (minedBoard Status.HIDDEN Status.HIDDEN)) (sessionOf freshBoard) rfl
      (by decide)).1⟩

/-! ## One pointer-up delivered to a grid of tiles -/

/-- A pointer-up delivered to one tile dispatches at most one click and leaves it idle. -/
theorem HandleInput_up_at_most_one (ops : BoardOps) (t : ClickableTile) (s : Session)
    (ev : SDL_Event) (hty : ev.type = EventType.MOUSEBUTTONUP) :
    clicks (HandleInput ops t s ev).2.trace ≤ clicks s.trace + 1 ∧
    (HandleInput ops t s ev).1.clickedInTile = false := by
  by_cases hc : t.contains ev.x ev.y = true ∧ t.clickedInTile = true
  · rw [HandleInput_up_click ops t s ev hty hc.1 hc.2]
    split_ifs
    · obtain ⟨h1, h2⟩ := OnLeftClick_clicks ops
        { t with clickedInTile := false,
                 fadeColor := ⟨255, 255, 255, toUint8 t.currentAlpha⟩ } s
      refine ⟨?_, rfl⟩
      unfold clicks
      simp only []
      omega
    · obtain ⟨h1, h2⟩ := OnRightClick_clicks
        { t with clickedInTile := false,
                 fadeColor := ⟨255, 255, 255, toUint8 t.currentAlpha⟩ } s
      refine ⟨?_, rfl⟩
      unfold clicks
      simp only []
      omega
    · exact ⟨Nat.le_succ _, rfl⟩
  · have hcancel : t.contains ev.x ev.y = false ∨ t.clickedInTile = false := by
      by_cases h1 : t.contains ev.x ev.y = true
      · right
        simpa using fun h2 => hc ⟨h1, h2⟩
      · left
        simpa using h1
    rw [HandleInput_up_cancel ops t s ev hty hcancel]
    exact ⟨Nat.le_succ _, rfl⟩

/-- A pointer-up outside all the tiles of a collection leaves the session alone and every
tile idle. -/
theorem deliver_up_outside (ops : BoardOps) (ev : SDL_Event)
    (hty : ev.type = EventType.MOUSEBUTTONUP) (ts : List ClickableTile) (s : Session)
    (hout : ∀ t ∈ ts, ¬ t.inRect ev.x ev.y) :
    (deliver ops ev ts s).2 = s ∧ ∀ t ∈ (deliver ops ev ts s).1, t.clickedInTile = false := by
  induction ts with
  | nil => exact ⟨rfl, fun t ht => by cases ht⟩
  | cons a ts ih =>
    have ha : a.contains ev.x ev.y = false := by
      rw [Bool.eq_false_iff]
      exact fun h => hout a (List.mem_cons_self _ _) ((contains_iff a ev.x ev.y).1 h)
    obtain ⟨ih1, ih2⟩ := ih fun t ht => hout t (List.mem_cons_of_mem _ ht)
    unfold deliver
    rw [HandleInput_up_cancel ops a s ev hty (Or.inl ha)]
    refine ⟨ih1, ?_⟩
    intro t ht
    rcases List.mem_cons.1 ht with h | h
    · rw [h]
    · exact ih2 t h

/-- C19: for every collection of tiles whose half-open rectangles are pairwise disjoint and
every assignment of press-capture flags, one pointer-up event delivered to all of them
dispatches at most one click in total, and afterwards every tile of the collection is
idle. -/
theorem pointer_up_clicks_at_most_one_tile (ops : BoardOps) (ev : SDL_Event)
    (ts : List ClickableTile) (s : Session) (hty : ev.type = EventType.MOUSEBUTTONUP)
    (hdisj : ts.Pairwise RectsDisjoint) :
    clicks (deliver ops ev ts s).2.trace ≤ clicks s.trace + 1 ∧
    (∀ t ∈ (deliver ops ev ts s).1, t.clickedInTile = false) ∧
    (deliver ops ev ts s).1.length = ts.length := by
  induction ts generalizing s with
  | nil => exact ⟨Nat.le_succ _, fun t ht => (by cases ht), rfl⟩
  | cons a ts ih =>
    rw [List.pairwise_cons] at hdisj
    obtain ⟨hup, hidle⟩ := HandleInput_up_at_most_one ops a s ev hty
    unfold deliver
    by_cases hin : a.inRect ev.x ev.y
    · obtain ⟨hs, hall⟩ := deliver_up_outside ops ev hty ts (HandleInput ops a s ev).2
        fun t ht h => hdisj.1 t ht ev.x ev.y ⟨hin, h⟩
      obtain ⟨_, _, hlen⟩ := ih (HandleInput ops a s ev).2 hdisj.2
      refine ⟨?_, ?_, ?_⟩
      · show clicks (deliver ops ev ts (HandleInput ops a s ev).2).2.trace ≤ _
        rw [hs]
        exact hup
      · intro t ht
        rcases List.mem_cons.1 ht with h | h
        · rw [h]; exact hidle
        · exact hall t h
      · simp only [List.length_cons, hlen]
    · have ha : a.contains ev.x ev.y = false := by
        rw [Bool.eq_false_iff]
        exact fun h => hin ((contains_iff a ev.x ev.y).1 h)
      have hs : (HandleInput ops a s ev).2 = s := by
        rw [HandleInput_up_cancel ops a s ev hty (Or.inl ha)]
      obtain ⟨h1, h2, hlen⟩ := ih (HandleInput ops a s ev).2 hdisj.2
      refine ⟨?_, ?_, ?_⟩
      · show clicks (deliver ops ev ts (HandleInput ops a s ev).2).2.trace ≤ _
        rw [hs] at h1 ⊢
        exact h1
      · intro t ht
        rcases List.mem_cons.1 ht with h | h
        · rw [h]; exact hidle
        · exact h2 t h
      · simp only [List.length_cons, hlen]

/-- Witness for C19: the two neighbouring tiles `(0,0)-(32,32)` and `(32,0)-(64,32)`, which
share an edge, both holding a captured press, and a left release at `(40,5)`. -/
theorem pointer_up_clicks_at_most_one_tile_witness :
    [tile00Pressed, tile10Pressed].Pairwise RectsDisjoint ∧
    clicks (deliver (specOps allMines) (buttonEvent EventType.MOUSEBUTTONUP 1 40 5)
      [tile00Pressed, tile10Pressed] (sessionOf freshBoard)).2.trace ≤
      clicks (sessionOf freshBoard).trace + 1 ∧
    (∀ t ∈ (deliver (specOps allMines) (buttonEvent EventType.MOUSEBUTTONUP 1 40 5)
      [tile00Pressed, tile10Pressed] (sessionOf freshBoard)).1, t.clickedInTile = false) :=
  have hd : [tile00Pressed, tile10Pressed].Pairwise RectsDisjoint :=
    List.Pairwise.cons
      (fun b hb => by
        rw [List.mem_singleton] at hb
        subst hb
        intro px py h
        have h1 := h.1.2.1
        have h2 := h.2.1
        simp only [tile00Pressed, tile10Pressed, tile00, tile10, ClickableTile.new] at h1 h2
        omega)
      (List.Pairwise.cons (fun b hb => by cases hb) List.Pairwise.nil)
  have h := pointer_up_clicks_at_most_one_tile (specOps allMines)
    (buttonEvent EventType.MOUSEBUTTONUP 1 40 5) [tile00Pressed, tile10Pressed]
    (sessionOf freshBoard) rfl hd
  ⟨hd, h.1, h.2.1⟩

/-! ## The flags-used counter and the marked cells -/

/-- C20, as stated, fails, in two ways.  From the fresh `2 × 1` session, a right-click on
tile `(0,0)` followed by the first left-click on tile `(1,0)` ends with cell `(0,0)` still
`MARKED` (one marked cell) and the flags-used counter reset to `0`.  And the first
left-click on tile `(0,0)`, a right-click on tile `(1,0)`, whose cell got the mine, and a
left-click on that flagged mine end with no cell marked (the losing path revealed it) and
the counter still at `1`. -/
theorem flags_used_desynchronizes :
    (sessionOf freshBoard).Fresh ∧
    (runClicks (specOps allMines) (sessionOf freshBoard)
      [Click.right tile00, Click.left tile10]).flagsUsed = 0 ∧
    (runClicks (specOps allMines) (sessionOf freshBoard)
      [Click.right tile00, Click.left tile10]).board.countMarked = 1 ∧
    (runClicks (specOps allMines) (sessionOf freshBoard)
      [Click.right tile00, Click.left tile10]).flagsUsed ≠
      ((runClicks (specOps allMines) (sessionOf freshBoard)
        [Click.right tile00, Click.left tile10]).board.countMarked : Int) ∧
    (runClicks (specOps allMines) (sessionOf freshBoard)
      [Click.left tile00, Click.right tile10, Click.left tile10]).flagsUsed = 1 ∧
    (runClicks (specOps allMines) (sessionOf freshBoard)
      [Click.left tile00, Click.right tile10, Click.left tile10]).board.countMarked = 0 ∧
    (runClicks (specOps allMines) (sessionOf freshBoard)
      [Click.left tile00, Click.right tile10, Click.left tile10]).flagsUsed ≠
      ((runClicks (specOps allMines) (sessionOf freshBoard)
        [Click.left tile00, Click.right tile10, Click.left tile10]).board.countMarked : Int) := by
  refine ⟨⟨rfl, rfl, fun _ _ => rfl⟩, ?_, ?_, ?_, ?_, ?_, ?_⟩ <;> decide

/-- The count of marked cells depends only on the grid size and on which cells of the grid
are marked. -/
theorem countMarked_congr (b c : Board) (hw : c.width = b.width) (hh : c.height = b.height)
    (hcell : ∀ x y, x < b.width → y < b.height →
      ((c.At x y).status = Status.MARKED ↔ (b.At x y).status = Status.MARKED)) :
    c.countMarked = b.countMarked := by
  unfold Board.countMarked
  rw [hw, hh]
  congr 1
  apply List.map_congr_left
  intro y hy
  apply List.countP_congr
  intro x hx
  have := hcell x y (List.mem_range.1 hx) (List.mem_range.1 hy)
  simp [this]

/-- A board none of whose cells is marked has marked count zero. -/
theorem countMarked_eq_zero (b : Board)
    (h : ∀ x y, x < b.width → y < b.height → (b.At x y).status ≠ Status.MARKED) :
    b.countMarked = 0 := by
  unfold Board.countMarked
  apply List.sum_eq_zero
  intro n hn
  rw [List.mem_map] at hn
  obtain ⟨y, hy, rfl⟩ := hn
  rw [List.countP_eq_zero]
  intro x hx
  simpa using h x y (List.mem_range.1 hx) (List.mem_range.1 hy)

/-- Marking one cell of the grid that was not marked raises the count by one. -/
theorem countMarked_mark (b : Board) (x0 y0 : Nat) (hx : x0 < b.width) (hy : y0 < b.height)
    (hs : (b.At x0 y0).status ≠ Status.MARKED) :
    (b.setStatus x0 y0 Status.MARKED).countMarked = b.countMarked + 1 := by
  unfold Board.countMarked
  show ((List.range b.height).map fun y => (List.range b.width).countP fun x =>
      decide (((b.setStatus x0 y0 Status.MARKED).At x y).status = Status.MARKED)).sum = _
  apply sum_map_point_update _ (List.nodup_range _) _ _ y0 (List.mem_range.2 hy)
  · apply countP_point_update _ (List.nodup_range _) _ _ x0 (List.mem_range.2 hx)
    · simp [Board.setStatus, Board.At]
    · simpa using hs
    · intro x hne
      simp [Board.setStatus, Board.At, hne]
  · intro y hne
    apply List.countP_congr
    intro x _
    simp [Board.setStatus, Board.At, hne]

/-- Taking the mark off one marked cell of the grid lowers the count by one. -/
theorem countMarked_unmark (b : Board) (x0 y0 : Nat) (st : Status) (hx : x0 < b.width)
    (hy : y0 < b.height) (hs : (b.At x0 y0).status = Status.MARKED)
    (hst : st ≠ Status.MARKED) :
    b.countMarked = (b.setStatus x0 y0 st).countMarked + 1 := by
  unfold Board.countMarked
  show _ = ((List.range b.height).map fun y => (List.range b.width).countP fun x =>
      decide (((b.setStatus x0 y0 st).At x y).status = Status.MARKED)).sum + 1
  apply sum_map_point_update _ (List.nodup_range _) _ _ y0 (List.mem_range.2 hy)
  · apply countP_point_update _ (List.nodup_range _) _ _ x0 (List.mem_range.2 hx)
    · simpa using hs
    · simpa [Board.setStatus, Board.At] using hst
    · intro x hne
      simp [Board.setStatus, Board.At, hne]
  · intro y hne
    apply List.countP_congr
    intro x _
    simp [Board.setStatus, Board.At, hne]

/-- A status change between two statuses other than `MARKED` keeps the count. -/
theorem countMarked_other (b : Board) (x0 y0 : Nat) (st : Status)
    (hs : (b.At x0 y0).status ≠ Status.MARKED) (hst : st ≠ Status.MARKED) :
    (b.setStatus x0 y0 st).countMarked = b.countMarked := by
  refine countMarked_congr b (b.setStatus x0 y0 st) rfl rfl ?_
  intro x y _ _
  by_cases hxy : x = x0 ∧ y = y0
  · obtain ⟨rfl, rfl⟩ := hxy
    have hs' : ¬ (b.cells x y).status = Status.MARKED := hs
    simp [Board.setStatus, Board.At, hst, hs']
  · simp [Board.setStatus, Board.At, hxy]

/-- A right-click on a tile of an initialized board keeps the counter in step. -/
theorem OnRightClick_FlagsInv (t : ClickableTile) (s : Session) (h : FlagsInv s)
    (hx : t.boardX < s.board.width) (hy : t.boardY < s.board.height)
    (hinit : s.board.initialized = true) : FlagsInv (OnRightClick t s) := by
  obtain ⟨hcount, _⟩ := h
  cases hst : (s.board.At t.boardX t.boardY).status
  · rw [OnRightClick_hidden t s hst]
    refine ⟨?_, fun hc => ?_⟩
    · show s.flagsUsed + 1 = ((s.board.setStatus t.boardX t.boardY Status.MARKED).countMarked : Int)
      rw [countMarked_mark s.board _ _ hx hy (by rw [hst]; decide), hcount]
      push_cast
      rfl
    · have hi : s.board.initialized = false := hc
      rw [hinit] at hi
      cases hi
  · rw [OnRightClick_revealed t s hst]
    exact ⟨hcount, fun hc => by rw [hinit] at hc; cases hc⟩
  · rw [OnRightClick_marked t s hst]
    refine ⟨?_, fun hc => ?_⟩
    · show s.flagsUsed - 1 = ((s.board.setStatus t.boardX t.boardY Status.QMARK).countMarked : Int)
      have := countMarked_unmark s.board _ _ Status.QMARK hx hy hst (by decide)
      rw [hcount, this]
      push_cast
      ring
    · have hi : s.board.initialized = false := hc
      rw [hinit] at hi
      cases hi
  · rw [OnRightClick_qmark t s hst]
    refine ⟨?_, fun hc => ?_⟩
    · show s.flagsUsed = ((s.board.setStatus t.boardX t.boardY Status.HIDDEN).countMarked : Int)
      rw [countMarked_other s.board _ _ Status.HIDDEN (by rw [hst]; decide) (by decide), hcount]
    · have hi : s.board.initialized = false := hc
      rw [hinit] at hi
      cases hi

/-- A left-click that is not a losing click keeps the counter in step, when the board's own
algorithms leave the marked cells alone and `RevealFrom` keeps the board initialized. -/
theorem OnLeftClick_FlagsInv (ops : BoardOps) (t : ClickableTile) (s : Session)
    (hI : ∀ b x y m, (ops.Initialize b x y m).countMarked = b.countMarked)
    (hR : ∀ b x y, (ops.RevealFrom b x y).1.countMarked = b.countMarked)
    (hRi : ∀ b x y, b.initialized = true → (ops.RevealFrom b x y).1.initialized = true)
    (h : FlagsInv s)
    (hsafe : ¬ (s.board.initialized = true ∧ (s.board.At t.boardX t.boardY).hasMine = true)) :
    FlagsInv (OnLeftClick ops t s) := by
  obtain ⟨hcount, hzero⟩ := h
  unfold FlagsInv
  rcases OnLeftClick_cases t s with hi | ⟨hi, hm, hs⟩ | ⟨hi, hm⟩ | ⟨hi, hm, hs⟩
  · rw [OnLeftClick_uninitialized ops t s hi, winCheck_board, winCheck_flagsUsed]
    have hc : (ops.RevealFrom (ops.Initialize s.board t.boardX t.boardY s.mineCount)
        t.boardX t.boardY).1.countMarked = 0 := by
      rw [hR, hI, hzero hi]
    show (0 : Int) = _ ∧ _
    rw [hc]
    exact ⟨rfl, fun _ => rfl⟩
  · rw [OnLeftClick_reveal ops t s hi hm hs, winCheck_board, winCheck_flagsUsed]
    show s.flagsUsed = ((ops.RevealFrom s.board t.boardX t.boardY).1.countMarked : Int) ∧
      ((ops.RevealFrom s.board t.boardX t.boardY).1.initialized = false → _)
    rw [hR]
    refine ⟨hcount, fun hc => ?_⟩
    rw [hRi _ _ _ hi] at hc
    cases hc
  · exact absurd ⟨hi, hm⟩ hsafe
  · rw [OnLeftClick_revealed ops t s hi hm hs, winCheck_board, winCheck_flagsUsed]
    exact ⟨hcount, hzero⟩

/-- The counter stays in step along every sequence of clicks each of which keeps the
count. -/
theorem runClicks_FlagsInv (ops : BoardOps)
    (hI : ∀ b x y m, (ops.Initialize b x y m).countMarked = b.countMarked)
    (hR : ∀ b x y, (ops.RevealFrom b x y).1.countMarked = b.countMarked)
    (hRi : ∀ b x y, b.initialized = true → (ops.RevealFrom b x y).1.initialized = true)
    (l : List Click) (s : Session) (h : FlagsInv s) (hkeep : clicksKeepCount ops s l = true) :
    FlagsInv (runClicks ops s l) := by
  induction l generalizing s with
  | nil => exact h
  | cons c l ih =>
    simp only [clicksKeepCount, Bool.and_eq_true] at hkeep
    show FlagsInv (runClicks ops (stepClick ops s c) l)
    apply ih _ _ hkeep.2
    have hk := hkeep.1
    cases c with
    | left t =>
      simp only [clickKeepsCount, Click.onBoard, Bool.and_eq_true, decide_eq_true_eq,
        Bool.not_eq_true', Bool.and_eq_false_iff] at hk
      apply OnLeftClick_FlagsInv ops t s hI hR hRi h
      rintro ⟨h1, h2⟩
      rcases hk.2 with h3 | h3
      · rw [h1] at h3; cases h3
      · rw [h2] at h3; cases h3
    | right t =>
      simp only [clickKeepsCount, Click.onBoard, Bool.and_eq_true, decide_eq_true_eq] at hk
      exact OnRightClick_FlagsInv t s h hk.1.1 hk.1.2 hk.2

/-- The `Initialize` of the specification leaves the statuses, hence the marked cells. -/
theorem Initialize_countMarked (layout : Nat → Nat → Bool) (b : Board) (x y : Nat) (m : Int) :
    (Board.Initialize layout b x y m).countMarked = b.countMarked :=
  countMarked_congr b (Board.Initialize layout b x y m) rfl rfl fun _ _ _ _ => Iff.rfl

/-- The flood fill of the specification leaves the marked cells and the initialization
flag. -/
theorem revealLoop_countMarked (fuel : Nat) (work : List (Nat × Nat)) (b : Board) (n : Int) :
    (Board.revealLoop fuel work b n).1.countMarked = b.countMarked ∧
    (Board.revealLoop fuel work b n).1.initialized = b.initialized := by
  induction fuel generalizing work b n with
  | zero => unfold Board.revealLoop; exact ⟨rfl, rfl⟩
  | succ fuel ih =>
    cases work with
    | nil => unfold Board.revealLoop; exact ⟨rfl, rfl⟩
    | cons c rest =>
      obtain ⟨x, y⟩ := c
      unfold Board.revealLoop
      by_cases hc : x < b.width ∧ y < b.height ∧ (b.At x y).status = Status.HIDDEN
      · rw [if_pos hc]
        have hb1 : Board.countMarked
            { b.setStatus x y Status.REVEALED with revealedTiles := b.revealedTiles + 1 } =
            b.countMarked := by
          rw [← countMarked_other b x y Status.REVEALED (by rw [hc.2.2]; decide) (by decide)]
          exact countMarked_congr _ _ rfl rfl fun _ _ _ _ => Iff.rfl
        simp only []
        split
        · obtain ⟨h1, h2⟩ := ih (b.neighbours x y ++ rest)
            { b.setStatus x y Status.REVEALED with revealedTiles := b.revealedTiles + 1 } (n + 1)
          exact ⟨h1.trans hb1, h2⟩
        · obtain ⟨h1, h2⟩ := ih rest
            { b.setStatus x y Status.REVEALED with revealedTiles := b.revealedTiles + 1 } (n + 1)
          exact ⟨h1.trans hb1, h2⟩
      · rw [if_neg hc]
        exact ih rest b n

/-- C20, amended: in every state reached from a fresh session by left-clicks and
right-clicks on tiles of the board, provided no right-click is dispatched before the
board is initialized and no left-click lands on a mined cell of the initialized board,
the flags-used counter equals the number of `MARKED` cells, when the board's own
`Initialize` and `RevealFrom` leave the marked cells alone and `RevealFrom` keeps the
board initialized. -/
theorem flags_used_counts_marked_cells (ops : BoardOps) (s : Session) (l : List Click)
    (hI : ∀ b x y m, (ops.Initialize b x y m).countMarked = b.countMarked)
    (hR : ∀ b x y, (ops.RevealFrom b x y).1.countMarked = b.countMarked)
    (hRi : ∀ b x y, b.initialized = true → (ops.RevealFrom b x y).1.initialized = true)
    (hfresh : s.Fresh) (hkeep : clicksKeepCount ops s l = true) :
    (runClicks ops s l).flagsUsed = ((runClicks ops s l).board.countMarked : Int) := by
  obtain ⟨_, hflags, hhidden⟩ := hfresh
  have hzero : s.board.countMarked = 0 :=
    countMarked_eq_zero s.board fun x y _ _ => by rw [hhidden x y]; decide
  have h0 : FlagsInv s := ⟨by rw [hflags, hzero]; rfl, fun _ => hzero⟩
  exact (runClicks_FlagsInv ops hI hR hRi l s h0 hkeep).1

/-- Witness for C20: a game on the fresh `2 × 1` board with the board algorithms of the
specification: it ends with cell `(1,0)` marked and the counter at `1`. -/
theorem flags_used_counts_marked_cells_witness :
    (sessionOf freshBoard).Fresh ∧
    clicksKeepCount (specOps allMines) (sessionOf freshBoard) flaggingGame = true ∧
    (runClicks (specOps allMines) (sessionOf freshBoard) flaggingGame).flagsUsed =
      ((runClicks (specOps allMines) (sessionOf freshBoard) flaggingGame).board.countMarked :
        Int) :=
  have hf : (sessionOf freshBoard).Fresh := ⟨rfl, rfl, fun _ _ => rfl⟩
  ⟨hf, by decide,
    flags_used_counts_marked_cells (specOps allMines) (sessionOf freshBoard) flaggingGame
      (fun b x y m => Initialize_countMarked allMines b x y m)
      (fun b x y => (revealLoop_countMarked _ _ b 0).1)
      (fun b x y hb => ((revealLoop_countMarked _ _ b 0).2).trans hb)
      hf (by decide)⟩

end Minesweeper
